import Mathlib

/-!
Verification of the PSCC2025Icons icon-resource tool (`pscc2025Icon.py`).

The development shallowly embeds the program: byte strings are `List Nat`
(each element a byte value `< 256`), Python `int` is `Int`, fallible code
returns `Option`/`Except`.  Definitions mirror the source; theorems settle
the specification claims.
-/

set_option maxRecDepth 100000

namespace Pscc2025

/-- `NAME_SIZE` constant from the source. -/
def NAME_SIZE : Nat := 48

/-- `DATA_SIZE` constant from the source. -/
def DATA_SIZE : Nat := 320

/-- `PicInfo`: offset and size of one embedded picture (Python ints). -/
structure PicInfo where
  offset : Int
  size : Int
deriving DecidableEq

instance : Inhabited PicInfo := ⟨⟨0, 0⟩⟩

/-- `IconData`: per-resolution geometry plus the list of 8 `PicInfo` slots. -/
structure IconData where
  width : Int
  height : Int
  x : Int
  y : Int
  pics : List PicInfo
deriving DecidableEq

instance : Inhabited IconData := ⟨⟨0, 0, 0, 0, List.replicate 8 default⟩⟩

/-- `ResourceIcon`: key (ASCII bytes) plus the four entries of the
`resolutions` dictionary (`low`, `high`, `xlow`, `xhigh`). -/
structure ResourceIcon where
  key : List Nat
  low : IconData
  high : IconData
  xlow : IconData
  xhigh : IconData
deriving DecidableEq

instance : Inhabited ResourceIcon := ⟨⟨[], default, default, default, default⟩⟩

/-- `struct.unpack('<i', ...)` on four byte values: little-endian signed
32-bit integer. -/
def sint32 (b0 b1 b2 b3 : Nat) : Int :=
  let u : Nat := b0 + 256 * b1 + 65536 * b2 + 16777216 * b3
  if u < 2147483648 then (u : Int) else (u : Int) - 4294967296

/-- `struct.pack('<i', v)`: the four little-endian bytes of `v` mod 2^32
(the caller must separately ensure `v` fits in a signed 32-bit integer;
Python raises `struct.error` otherwise, modelled by the `Option` guard in
`ResourceIcon.to_byte_array`). -/
def packInt32 (v : Int) : List Nat :=
  let u : Nat := (v % 4294967296).toNat
  [u % 256, u / 256 % 256, u / 65536 % 256, u / 16777216 % 256]

/-- `struct.unpack('<' + 'i' * (len/4), ...)`: consecutive little-endian
signed 32-bit integers. -/
def unpackInts : List Nat → List Int
  | b0 :: b1 :: b2 :: b3 :: rest => sint32 b0 b1 b2 b3 :: unpackInts rest
  | _ => []

/-- Python `bytes.strip('\x00')` (via `str.strip` after an ASCII decode):
removes NUL bytes from BOTH ends. -/
def pyStrip0 (l : List Nat) : List Nat :=
  ((l.dropWhile (· == 0)).reverse.dropWhile (· == 0)).reverse

/-- The per-resolution block of `ResourceIcon.__init__` for resolution
index `t` (`0`=low, `1`=high, `2`=xlow, `3`=xhigh): `width = data[t]`,
`height = data[4+t]`, `x = data[8+t]`, `y = data[12+t]`,
`pics[i].offset = data[16+8t+i]`, `pics[i].size = data[48+8t+i]`. -/
def mkIconDataFrom (data : List Int) (t : Nat) : IconData :=
  { width := data.getD t 0
    height := data.getD (4 + t) 0
    x := data.getD (8 + t) 0
    y := data.getD (12 + t) 0
    pics := (List.range 8).map fun i =>
      { offset := data.getD (16 + 8 * t + i) 0, size := data.getD (48 + 8 * t + i) 0 } }

/-- `ResourceIcon.__init__` with a buffer: key = first 48 bytes, ASCII
decoded (`none` on a non-ASCII byte, as Python raises) and NUL-stripped;
the following 320 bytes unpacked as 80 ints (`none` when fewer than 320
bytes remain, as `struct.unpack` raises). -/
def decodeResourceIcon (buffer_data : List Nat) : Option ResourceIcon :=
  let keyField := buffer_data.take NAME_SIZE
  if keyField.all (· < 128) then
    let data_bytes := (buffer_data.drop NAME_SIZE).take DATA_SIZE
    if data_bytes.length = DATA_SIZE then
      let data := unpackInts data_bytes
      some { key := pyStrip0 keyField
             low := mkIconDataFrom data 0
             high := mkIconDataFrom data 1
             xlow := mkIconDataFrom data 2
             xhigh := mkIconDataFrom data 3 }
    else none
  else none

/-- `v` fits `struct.pack('<i', v)`. -/
def int32ok (v : Int) : Bool := decide (-2147483648 ≤ v) && decide (v < 2147483648)

/-- All values of an `IconData` that `to_byte_array` packs fit in a signed
32-bit integer, and the 8 slots the loop `for i in range(8)` accesses
exist. -/
def IconData.valsOk (d : IconData) : Bool :=
  int32ok d.width && int32ok d.height && int32ok d.x && int32ok d.y &&
  decide (8 ≤ d.pics.length) &&
  (d.pics.take 8).all fun p => int32ok p.offset && int32ok p.size

/-- The 320 data bytes of `ResourceIcon.to_byte_array`: dimensions
field-major (`for field in [width,height,x,y]: for key in res_keys`), then
offsets and sizes resolution-major (`for key in res_keys: for i in
range(8)`). -/
def encodeData (r : ResourceIcon) : List Nat :=
  ([r.low, r.high, r.xlow, r.xhigh].map fun d => packInt32 d.width).flatten ++
  ([r.low, r.high, r.xlow, r.xhigh].map fun d => packInt32 d.height).flatten ++
  ([r.low, r.high, r.xlow, r.xhigh].map fun d => packInt32 d.x).flatten ++
  ([r.low, r.high, r.xlow, r.xhigh].map fun d => packInt32 d.y).flatten ++
  (([r.low, r.high, r.xlow, r.xhigh].map fun d =>
    ((List.range 8).map fun i => packInt32 ((d.pics.getD i default).offset)).flatten).flatten) ++
  (([r.low, r.high, r.xlow, r.xhigh].map fun d =>
    ((List.range 8).map fun i => packInt32 ((d.pics.getD i default).size)).flatten).flatten)

/-- `ResourceIcon.to_byte_array`: ASCII key, NUL-padded to 48 bytes
(Python `[0] * (48 - len)` is empty when the key is longer — there is no
length check), followed by the 320 data bytes.  `none` exactly when Python
raises: a non-ASCII key character, a value outside signed 32-bit range, or
fewer than 8 `pics` entries. -/
def ResourceIcon.to_byte_array (r : ResourceIcon) : Option (List Nat) :=
  if r.key.all (· < 128) && r.low.valsOk && r.high.valsOk && r.xlow.valsOk && r.xhigh.valsOk then
    some (r.key ++ List.replicate (NAME_SIZE - r.key.length) 0 ++ encodeData r)
  else none

/-! ### Codec lemmas -/

theorem pack_sint32 {b0 b1 b2 b3 : Nat} (h0 : b0 < 256) (h1 : b1 < 256)
    (h2 : b2 < 256) (h3 : b3 < 256) :
    packInt32 (sint32 b0 b1 b2 b3) = [b0, b1, b2, b3] := by
  simp only [sint32, packInt32, List.cons.injEq, and_true]
  split <;> refine ⟨?_, ?_, ?_, ?_⟩ <;> omega

theorem sint32_int32ok {b0 b1 b2 b3 : Nat} (h0 : b0 < 256) (h1 : b1 < 256)
    (h2 : b2 < 256) (h3 : b3 < 256) : int32ok (sint32 b0 b1 b2 b3) = true := by
  simp only [sint32, int32ok, Bool.and_eq_true, decide_eq_true_eq]
  split <;> constructor <;> omega

theorem unpackInts_length : ∀ l : List Nat, (unpackInts l).length = l.length / 4
  | [] => rfl
  | [_] => by simp [unpackInts]
  | [_, _] => by simp [unpackInts]
  | [_, _, _] => by simp [unpackInts]
  | _ :: _ :: _ :: _ :: rest => by
      simp only [unpackInts, List.length_cons]
      rw [unpackInts_length rest]
      omega

theorem unpackInts_int32ok : ∀ l : List Nat, l.all (· < 256) = true →
    ∀ x ∈ unpackInts l, int32ok x = true
  | [], _, x, hx => by simp [unpackInts] at hx
  | [_], _, x, hx => by simp [unpackInts] at hx
  | [_, _], _, x, hx => by simp [unpackInts] at hx
  | [_, _, _], _, x, hx => by simp [unpackInts] at hx
  | b0 :: b1 :: b2 :: b3 :: rest, hall, x, hx => by
      simp only [List.all_cons, Bool.and_eq_true, decide_eq_true_eq] at hall
      obtain ⟨g0, g1, g2, g3, grest⟩ := hall
      rcases (List.mem_cons.mp hx) with h | h
      · subst h; exact sint32_int32ok g0 g1 g2 g3
      · exact unpackInts_int32ok rest grest x h

theorem flatten_pack_unpack : ∀ l : List Nat, l.all (· < 256) = true → l.length % 4 = 0 →
    ((unpackInts l).map packInt32).flatten = l
  | [], _, _ => rfl
  | [_], _, h => by simp at h
  | [_, _], _, h => by simp at h
  | [_, _, _], _, h => by simp at h
  | b0 :: b1 :: b2 :: b3 :: rest, hall, hlen => by
      simp only [List.all_cons, Bool.and_eq_true, decide_eq_true_eq] at hall
      obtain ⟨g0, g1, g2, g3, grest⟩ := hall
      simp only [unpackInts, List.map_cons, List.flatten_cons]
      rw [pack_sint32 g0 g1 g2 g3,
        flatten_pack_unpack rest grest (by simp only [List.length_cons] at hlen; omega)]
      rfl

theorem getD_unpackInts_int32ok (l : List Nat) (hall : l.all (· < 256) = true) (k : Nat) :
    int32ok ((unpackInts l).getD k 0) = true := by
  cases hx : (unpackInts l)[k]? with
  | none => simp [List.getD, hx]; rfl
  | some x =>
      have hmem : x ∈ unpackInts l := by
        have := List.getElem?_eq_some.mp hx
        obtain ⟨h, rfl⟩ := this
        exact List.getElem_mem h
      have := unpackInts_int32ok l hall x hmem
      simpa [List.getD, hx]

theorem getD_map_range {α : Type} (f : Nat → α) (n i : Nat) (h : i < n) (d : α) :
    ((List.range n).map f).getD i d = f i := by
  have hx : ((List.range n).map f)[i]? = some (f i) := by
    rw [List.getElem?_map, List.getElem?_range h]
    rfl
  simp [List.getD, hx]

theorem range_map_getD {α : Type} (l : List α) (s c : Nat) (d : α) (h : s + c ≤ l.length) :
    (List.range c).map (fun i => l.getD (s + i) d) = (l.drop s).take c := by
  induction c with
  | zero => simp
  | succ c ih =>
      rw [List.range_succ, List.map_append, ih (by omega)]
      have hs : s + c < l.length := by omega
      have hx : l[s + c]? = some (l[s + c]) := List.getElem?_eq_some.mpr ⟨hs, rfl⟩
      have h1 : l.getD (s + c) d = l[s + c] := by simp [List.getD, hx]
      have h2 : (l.drop s)[c]? = some (l[s + c]) := by
        rw [List.getElem?_drop]; exact hx
      rw [List.take_succ, h2]
      simp [h1, hx]

theorem seg_merge {α : Type} (l : List α) (a b j z c : Nat) (hj : j = a + b) (hz : z = b + c) :
    (l.drop a).take b ++ (l.drop j).take c = (l.drop a).take z := by
  subst hj hz
  rw [List.take_add, List.drop_drop]

theorem packSeg_merge (data : List Int) (s c j z c' : Nat) (hj : j = s + c) (hz : z = c + c') :
    (((data.drop s).take c).map packInt32).flatten ++
      (((data.drop j).take c').map packInt32).flatten
      = (((data.drop s).take z).map packInt32).flatten := by
  rw [← List.flatten_append, ← List.map_append, seg_merge data s c j z c' hj hz]

/-! ### NUL stripping lemmas -/

theorem dropWhile_eq_self_of_all {l : List Nat} (h : ∀ x ∈ l, x ≠ 0) :
    l.dropWhile (· == 0) = l := by
  cases l with
  | nil => rfl
  | cons a t =>
      rw [List.dropWhile_cons]
      simp [h a (by simp)]

theorem dropWhile_zero_replicate_append (m : Nat) (t : List Nat) :
    (List.replicate m 0 ++ t).dropWhile (· == 0) = t.dropWhile (· == 0) := by
  induction m with
  | zero => rfl
  | succ m ih => simpa [List.replicate_succ, List.dropWhile_cons] using ih

theorem pyStrip0_padded : ∀ (s : List Nat) (m : Nat), (∀ x ∈ s, x ≠ 0) →
    pyStrip0 (s ++ List.replicate m 0) = s := by
  intro s m hs
  unfold pyStrip0
  cases s with
  | nil =>
      have h1 : (List.replicate m 0).dropWhile (· == 0) = ([] : List Nat) := by
        simpa using dropWhile_zero_replicate_append m []
      simp [h1]
  | cons a t =>
      have ha : ((a : Nat) == 0) = false := by simpa using hs a (by simp)
      rw [List.cons_append, List.dropWhile_cons, ha]
      simp only [Bool.false_eq_true, if_false]
      rw [List.reverse_cons, List.reverse_append, List.reverse_replicate, List.append_assoc,
        dropWhile_zero_replicate_append,
        dropWhile_eq_self_of_all (by
          intro x hx
          rcases List.mem_append.mp hx with h | h
          · exact hs x (by simp [List.mem_reverse.mp h])
          · have hxa : x = a := by simpa using h
            subst hxa
            exact hs x (by simp))]
      simp

/-! ### `encodeData` over a decoded record -/

section EncodeBlocks

variable (data : List Int)

theorem blockWidth (h : 4 ≤ data.length) :
    ([mkIconDataFrom data 0, mkIconDataFrom data 1, mkIconDataFrom data 2,
      mkIconDataFrom data 3].map fun d => packInt32 d.width).flatten
      = (((data.drop 0).take 4).map packInt32).flatten := by
  rw [← range_map_getD data 0 4 0 (by omega)]
  rfl

theorem blockHeight (h : 8 ≤ data.length) :
    ([mkIconDataFrom data 0, mkIconDataFrom data 1, mkIconDataFrom data 2,
      mkIconDataFrom data 3].map fun d => packInt32 d.height).flatten
      = (((data.drop 4).take 4).map packInt32).flatten := by
  rw [← range_map_getD data 4 4 0 (by omega)]
  rfl

theorem blockX (h : 12 ≤ data.length) :
    ([mkIconDataFrom data 0, mkIconDataFrom data 1, mkIconDataFrom data 2,
      mkIconDataFrom data 3].map fun d => packInt32 d.x).flatten
      = (((data.drop 8).take 4).map packInt32).flatten := by
  rw [← range_map_getD data 8 4 0 (by omega)]
  rfl

theorem blockY (h : 16 ≤ data.length) :
    ([mkIconDataFrom data 0, mkIconDataFrom data 1, mkIconDataFrom data 2,
      mkIconDataFrom data 3].map fun d => packInt32 d.y).flatten
      = (((data.drop 12).take 4).map packInt32).flatten := by
  rw [← range_map_getD data 12 4 0 (by omega)]
  rfl

theorem blockOff0 (h : 24 ≤ data.length) :
    ((List.range 8).map fun i =>
      packInt32 (((mkIconDataFrom data 0).pics.getD i default).offset)).flatten
      = (((data.drop 16).take 8).map packInt32).flatten := by
  rw [← range_map_getD data 16 8 0 (by omega)]
  rfl

theorem blockOff1 (h : 32 ≤ data.length) :
    ((List.range 8).map fun i =>
      packInt32 (((mkIconDataFrom data 1).pics.getD i default).offset)).flatten
      = (((data.drop 24).take 8).map packInt32).flatten := by
  rw [← range_map_getD data 24 8 0 (by omega)]
  rfl

theorem blockOff2 (h : 40 ≤ data.length) :
    ((List.range 8).map fun i =>
      packInt32 (((mkIconDataFrom data 2).pics.getD i default).offset)).flatten
      = (((data.drop 32).take 8).map packInt32).flatten := by
  rw [← range_map_getD data 32 8 0 (by omega)]
  rfl

theorem blockOff3 (h : 48 ≤ data.length) :
    ((List.range 8).map fun i =>
      packInt32 (((mkIconDataFrom data 3).pics.getD i default).offset)).flatten
      = (((data.drop 40).take 8).map packInt32).flatten := by
  rw [← range_map_getD data 40 8 0 (by omega)]
  rfl

theorem blockSize0 (h : 56 ≤ data.length) :
    ((List.range 8).map fun i =>
      packInt32 (((mkIconDataFrom data 0).pics.getD i default).size)).flatten
      = (((data.drop 48).take 8).map packInt32).flatten := by
  rw [← range_map_getD data 48 8 0 (by omega)]
  rfl

theorem blockSize1 (h : 64 ≤ data.length) :
    ((List.range 8).map fun i =>
      packInt32 (((mkIconDataFrom data 1).pics.getD i default).size)).flatten
      = (((data.drop 56).take 8).map packInt32).flatten := by
  rw [← range_map_getD data 56 8 0 (by omega)]
  rfl

theorem blockSize2 (h : 72 ≤ data.length) :
    ((List.range 8).map fun i =>
      packInt32 (((mkIconDataFrom data 2).pics.getD i default).size)).flatten
      = (((data.drop 64).take 8).map packInt32).flatten := by
  rw [← range_map_getD data 64 8 0 (by omega)]
  rfl

theorem blockSize3 (h : 80 ≤ data.length) :
    ((List.range 8).map fun i =>
      packInt32 (((mkIconDataFrom data 3).pics.getD i default).size)).flatten
      = (((data.drop 72).take 8).map packInt32).flatten := by
  rw [← range_map_getD data 72 8 0 (by omega)]
  rfl

end EncodeBlocks

/-- `encodeData` of a record decoded from 80 unpacked ints reproduces the
packing of those 80 ints in index order 0..79. -/
theorem encodeData_mk (key : List Nat) (data : List Int) (hlen : data.length = 80) :
    encodeData ⟨key, mkIconDataFrom data 0, mkIconDataFrom data 1,
      mkIconDataFrom data 2, mkIconDataFrom data 3⟩ = (data.map packInt32).flatten := by
  have h80 : 80 ≤ data.length := by omega
  dsimp only [encodeData]
  rw [blockWidth data (by omega), blockHeight data (by omega), blockX data (by omega),
    blockY data (by omega)]
  simp only [List.map_cons, List.map_nil, List.flatten_cons, List.flatten_nil,
    List.append_nil]
  rw [blockOff0 data (by omega), blockOff1 data (by omega), blockOff2 data (by omega),
    blockOff3 data (by omega), blockSize0 data (by omega), blockSize1 data (by omega),
    blockSize2 data (by omega), blockSize3 data (by omega)]
  simp only [List.append_assoc]
  rw [packSeg_merge data 64 8 72 16 8 (by norm_num) (by norm_num),
    packSeg_merge data 56 8 64 24 16 (by norm_num) (by norm_num),
    packSeg_merge data 48 8 56 32 24 (by norm_num) (by norm_num),
    packSeg_merge data 40 8 48 40 32 (by norm_num) (by norm_num),
    packSeg_merge data 32 8 40 48 40 (by norm_num) (by norm_num),
    packSeg_merge data 24 8 32 56 48 (by norm_num) (by norm_num),
    packSeg_merge data 16 8 24 64 56 (by norm_num) (by norm_num),
    packSeg_merge data 12 4 16 68 64 (by norm_num) (by norm_num),
    packSeg_merge data 8 4 12 72 68 (by norm_num) (by norm_num),
    packSeg_merge data 4 4 8 76 72 (by norm_num) (by norm_num),
    packSeg_merge data 0 4 4 80 76 (by norm_num) (by norm_num)]
  rw [List.drop_zero, ← hlen, List.take_length]

theorem valsOk_mkIconDataFrom (l : List Nat) (hall : l.all (· < 256) = true) (t : Nat) :
    (mkIconDataFrom (unpackInts l) t).valsOk = true := by
  simp only [IconData.valsOk, mkIconDataFrom, Bool.and_eq_true]
  refine ⟨⟨⟨⟨⟨?_, ?_⟩, ?_⟩, ?_⟩, ?_⟩, ?_⟩
  · exact getD_unpackInts_int32ok l hall t
  · exact getD_unpackInts_int32ok l hall (4 + t)
  · exact getD_unpackInts_int32ok l hall (8 + t)
  · exact getD_unpackInts_int32ok l hall (12 + t)
  · simp
  · rw [List.all_eq_true]
    intro p hp
    have hp' := List.mem_of_mem_take hp
    obtain ⟨i, hi, rfl⟩ := List.mem_map.mp hp'
    simp only [Bool.and_eq_true]
    exact ⟨getD_unpackInts_int32ok l hall _, getD_unpackInts_int32ok l hall _⟩

/-- A well-formed 368-byte record: exactly 368 byte-valued entries, whose
48-byte key field is a NUL-free ASCII key right-padded with NUL bytes
(the format's null-padded key convention). -/
def wellFormedRecord (b : List Nat) : Bool :=
  decide (b.length = 368) && b.all (· < 256) &&
  ((b.take NAME_SIZE).dropWhile (· != 0)).all (· == 0) &&
  ((b.take NAME_SIZE).takeWhile (· != 0)).all (· < 128)

/-- Shared round-trip core: decode-then-encode of a well-formed record. -/
theorem record_roundtrip (b : List Nat) (h : wellFormedRecord b = true) :
    (decodeResourceIcon b).bind ResourceIcon.to_byte_array = some b := by
  simp only [wellFormedRecord, Bool.and_eq_true, decide_eq_true_eq] at h
  obtain ⟨⟨⟨hlen, hall⟩, hpad⟩, hascii⟩ := h
  have hklen : (b.take NAME_SIZE).length = 48 := by
    simp [NAME_SIZE, List.length_take]; omega
  have hsne : ∀ x ∈ (b.take NAME_SIZE).takeWhile (· != 0), x ≠ 0 := by
    intro x hx
    simpa using List.mem_takeWhile_imp hx
  have hkeq : b.take NAME_SIZE =
      (b.take NAME_SIZE).takeWhile (· != 0) ++
      List.replicate (48 - ((b.take NAME_SIZE).takeWhile (· != 0)).length) 0 := by
    have h1 : (b.take NAME_SIZE).dropWhile (· != 0) =
        List.replicate ((b.take NAME_SIZE).dropWhile (· != 0)).length 0 := by
      rw [List.eq_replicate_iff]
      exact ⟨rfl, fun x hx => by simpa using List.all_eq_true.mp hpad x hx⟩
    have h2 := List.takeWhile_append_dropWhile (p := (· != 0)) (l := b.take NAME_SIZE)
    have h3 : ((b.take NAME_SIZE).takeWhile (· != 0)).length +
        ((b.take NAME_SIZE).dropWhile (· != 0)).length = 48 := by
      rw [← List.length_append, h2, hklen]
    calc b.take NAME_SIZE
        = (b.take NAME_SIZE).takeWhile (· != 0) ++ (b.take NAME_SIZE).dropWhile (· != 0) :=
          h2.symm
      _ = _ := by rw [h1]; congr 2; omega
  have hstrip : pyStrip0 (b.take NAME_SIZE) = (b.take NAME_SIZE).takeWhile (· != 0) := by
    have h4 := pyStrip0_padded _
      (48 - ((b.take NAME_SIZE).takeWhile (· != 0)).length) hsne
    rw [← hkeq] at h4
    exact h4
  have hk128 : (b.take NAME_SIZE).all (· < 128) = true := by
    rw [List.all_eq_true]
    intro x hx
    rw [hkeq] at hx
    rcases List.mem_append.mp hx with hx | hx
    · simpa using List.all_eq_true.mp hascii x hx
    · have : x = 0 := List.eq_of_mem_replicate hx
      simp [this]
  have hdlen : (b.drop NAME_SIZE).length = 320 := by simp [NAME_SIZE, hlen]
  have hdata_bytes : (b.drop NAME_SIZE).take 320 = b.drop NAME_SIZE := by
    rw [← hdlen, List.take_length]
  have halld : (b.drop NAME_SIZE).all (· < 256) = true := by
    rw [List.all_eq_true]
    intro x hx
    exact List.all_eq_true.mp hall x ((List.drop_sublist _ _).subset hx)
  have hulen : (unpackInts (b.drop NAME_SIZE)).length = 80 := by
    rw [unpackInts_length, hdlen]
  have hdecode : decodeResourceIcon b = some
      { key := (b.take NAME_SIZE).takeWhile (· != 0)
        low := mkIconDataFrom (unpackInts (b.drop NAME_SIZE)) 0
        high := mkIconDataFrom (unpackInts (b.drop NAME_SIZE)) 1
        xlow := mkIconDataFrom (unpackInts (b.drop NAME_SIZE)) 2
        xhigh := mkIconDataFrom (unpackInts (b.drop NAME_SIZE)) 3 } := by
    simp [decodeResourceIcon, hk128, DATA_SIZE, hdata_bytes, hdlen, hstrip]
  rw [hdecode]
  show ResourceIcon.to_byte_array _ = some b
  simp only [ResourceIcon.to_byte_array, hascii, valsOk_mkIconDataFrom _ halld,
    Bool.and_self, Bool.and_true, Bool.true_and, if_true]
  rw [encodeData_mk _ _ hulen, flatten_pack_unpack _ halld (by rw [hdlen])]
  refine congrArg some ?_
  show (b.take NAME_SIZE).takeWhile (· != 0) ++
      List.replicate (48 - ((b.take NAME_SIZE).takeWhile (· != 0)).length) 0 ++
      b.drop NAME_SIZE = b
  rw [← hkeq, List.take_append_drop]

/-- **C1**: decoding a well-formed 368-byte record into a `ResourceIcon`
and re-encoding it with `to_byte_array` reproduces the original 368 bytes
exactly (`Encode(Decode(b)) == b`). -/
theorem C1_record_roundtrip (b : List Nat) (h : wellFormedRecord b = true) :
    (decodeResourceIcon b).bind ResourceIcon.to_byte_array = some b :=
  record_roundtrip b h

/-- The byte pattern `b"Spinner_12"` — the first known catalog key, used by
the reader as a sentinel. -/
def first_key_name : List Nat := [83, 112, 105, 110, 110, 101, 114, 95, 49, 50]

/-- Demonstration record: key `Spinner_12`, low-resolution slot 0 at
`offset = 4`, `size = 10`, every other field zero. -/
def demoRecord : List Nat :=
  first_key_name ++ List.replicate 38 0 ++
  (List.replicate 64 0 ++ [4, 0, 0, 0] ++ List.replicate 124 0 ++ [10, 0, 0, 0] ++
    List.replicate 124 0)

/-- Witness for **C1** at the concrete record `demoRecord`. -/
theorem C1_record_roundtrip_witness :
    wellFormedRecord demoRecord = true ∧
    (decodeResourceIcon demoRecord).bind ResourceIcon.to_byte_array = some demoRecord :=
  ⟨by decide, C1_record_roundtrip demoRecord (by decide)⟩

/-! ### Byte-level layout lemmas (for C2) -/

/-- The little-endian signed 32-bit integer held in bytes `j..j+3` of `b`. -/
def leInt32 (b : List Nat) (j : Nat) : Int :=
  sint32 (b.getD j 0) (b.getD (j + 1) 0) (b.getD (j + 2) 0) (b.getD (j + 3) 0)

theorem getD_drop0 (l : List Nat) (n j : Nat) : (l.drop n).getD j 0 = l.getD (n + j) 0 := by
  simp [List.getD, List.getElem?_drop]

theorem leInt32_drop (b : List Nat) (n j : Nat) : leInt32 (b.drop n) j = leInt32 b (n + j) := by
  simp only [leInt32, getD_drop0, Nat.add_assoc]

theorem getD_cons4 (l' : List Nat) (a0 a1 a2 a3 : Nat) (n : Nat) :
    (a0 :: a1 :: a2 :: a3 :: l').getD (n + 4) 0 = l'.getD n 0 := by
  rw [show n + 4 = (((n + 1) + 1) + 1) + 1 from rfl]
  simp [List.getD_cons_succ]

theorem getD_unpackInts : ∀ (l : List Nat) (k : Nat), 4 * k + 4 ≤ l.length →
    (unpackInts l).getD k 0 = leInt32 l (4 * k)
  | [], k, h => by simp at h
  | [_], k, h => by simp at h
  | [_, _], k, h => by simp at h
  | [_, _, _], k, h => by simp at h
  | b0 :: b1 :: b2 :: b3 :: rest, 0, h => by
      simp [unpackInts, leInt32, List.getD]
  | b0 :: b1 :: b2 :: b3 :: rest, k + 1, h => by
      have h' : 4 * k + 4 ≤ rest.length := by
        simp only [List.length_cons] at h; omega
      have ih := getD_unpackInts rest k h'
      simp only [unpackInts, List.getD_cons_succ]
      rw [ih]
      simp only [leInt32]
      rw [show 4 * (k + 1) = 4 * k + 4 from by omega,
        show 4 * k + 4 + 1 = (4 * k + 1) + 4 from by omega,
        show 4 * k + 4 + 2 = (4 * k + 2) + 4 from by omega,
        show 4 * k + 4 + 3 = (4 * k + 3) + 4 from by omega,
        getD_cons4, getD_cons4, getD_cons4, getD_cons4]

/-- Int `k` of the 80-int data block of a 368-byte record occupies bytes
`48+4k .. 48+4k+3`. -/
theorem dataInt_byte (b : List Nat) (hlen : b.length = 368) (k : Nat) (hk : k < 80) :
    (unpackInts (b.drop NAME_SIZE)).getD k 0 = leInt32 b (48 + 4 * k) := by
  rw [getD_unpackInts _ k (by simp only [List.length_drop, hlen, NAME_SIZE]; omega)]
  rw [show (NAME_SIZE : Nat) = 48 from rfl, leInt32_drop]

/-- The shared shape of a successful decode of a 368-byte buffer. -/
theorem decode_eq (b : List Nat) (hlen : b.length = 368)
    (hascii : (b.take NAME_SIZE).all (· < 128) = true) :
    decodeResourceIcon b = some
      { key := pyStrip0 (b.take NAME_SIZE)
        low := mkIconDataFrom (unpackInts (b.drop NAME_SIZE)) 0
        high := mkIconDataFrom (unpackInts (b.drop NAME_SIZE)) 1
        xlow := mkIconDataFrom (unpackInts (b.drop NAME_SIZE)) 2
        xhigh := mkIconDataFrom (unpackInts (b.drop NAME_SIZE)) 3 } := by
  have hdlen : (b.drop NAME_SIZE).length = 320 := by simp [NAME_SIZE, hlen]
  have hdata_bytes : (b.drop NAME_SIZE).take 320 = b.drop NAME_SIZE := by
    rw [← hdlen, List.take_length]
  simp [decodeResourceIcon, hascii, DATA_SIZE, hdata_bytes, hdlen]

/-! ### `pyStrip0` structure (both-end NUL stripping) -/

theorem dropWhile_head_not (p : Nat → Bool) : ∀ (l : List Nat) (a : Nat) (t' : List Nat),
    l.dropWhile p = a :: t' → p a = false
  | [], a, t', h => by simp at h
  | x :: xs, a, t', h => by
      rw [List.dropWhile_cons] at h
      by_cases hx : p x = true
      · rw [if_pos hx] at h
        exact dropWhile_head_not p xs a t' h
      · rw [if_neg hx] at h
        injection h with h1 h2
        subst h1
        simpa using hx

/-- Structure of Python's two-sided NUL strip: the input is leading NULs,
then the stripped core (which neither starts nor ends with a NUL), then
trailing NULs. -/
theorem pyStrip0_spec (l : List Nat) :
    ∃ m n, l = List.replicate m 0 ++ pyStrip0 l ++ List.replicate n 0 ∧
      (pyStrip0 l = [] ∨
        ((pyStrip0 l).head? ≠ some 0 ∧ (pyStrip0 l).getLast? ≠ some 0)) := by
  set t := l.dropWhile (· == 0) with ht
  set u := t.reverse.dropWhile (· == 0) with hu
  have hstrip : pyStrip0 l = u.reverse := rfl
  have hl : l = l.takeWhile (· == 0) ++ t := (List.takeWhile_append_dropWhile ..).symm
  have hm : l.takeWhile (· == 0) = List.replicate (l.takeWhile (· == 0)).length 0 := by
    rw [List.eq_replicate_iff]
    exact ⟨rfl, fun x hx => by simpa using List.mem_takeWhile_imp hx⟩
  have htr : t.reverse = t.reverse.takeWhile (· == 0) ++ u :=
    (List.takeWhile_append_dropWhile ..).symm
  have hn : t.reverse.takeWhile (· == 0) =
      List.replicate (t.reverse.takeWhile (· == 0)).length 0 := by
    rw [List.eq_replicate_iff]
    exact ⟨rfl, fun x hx => by simpa using List.mem_takeWhile_imp hx⟩
  refine ⟨(l.takeWhile (· == 0)).length, (t.reverse.takeWhile (· == 0)).length, ?_, ?_⟩
  · have e1 : t = u.reverse ++ (t.reverse.takeWhile (· == 0)).reverse := by
      have h5 := congrArg List.reverse htr
      rwa [List.reverse_reverse, List.reverse_append] at h5
    have e2 : (t.reverse.takeWhile (· == 0)).reverse
        = List.replicate (t.reverse.takeWhile (· == 0)).length 0 := by
      conv_lhs => rw [hn]
      rw [List.reverse_replicate]
    calc l = l.takeWhile (· == 0) ++ t := hl
      _ = List.replicate (l.takeWhile (· == 0)).length 0 ++ t := by
          conv_lhs => rw [hm]
      _ = List.replicate (l.takeWhile (· == 0)).length 0 ++
          (u.reverse ++ List.replicate (t.reverse.takeWhile (· == 0)).length 0) := by
          conv_lhs => rw [e1, e2]
      _ = _ := by rw [hstrip, List.append_assoc]
  · rcases hcase : u with _ | ⟨a, u'⟩
    · left; simp [hstrip, hcase]
    · right
      have hahead : ((a : Nat) == 0) = false := by
        refine dropWhile_head_not (· == 0) t.reverse a u' ?_
        rw [← hu, hcase]
      have hune : u ≠ [] := by rw [hcase]; simp
      have htne : t ≠ [] := by
        intro h0
        apply hune
        rw [hu, h0]
        rfl
      constructor
      · -- head of the stripped core = last of `u` = head of `t`, nonzero
        rw [hstrip, List.head?_reverse]
        obtain ⟨pre, hpre⟩ : u <:+ t.reverse := hu ▸ List.dropWhile_suffix _
        have h1 : u.getLast? = t.reverse.getLast? := by
          rw [← hpre, List.getLast?_append_of_ne_nil pre hune]
        rcases htc : t with _ | ⟨c, t''⟩
        · exact absurd htc htne
        · have hc : ((c : Nat) == 0) = false := by
            refine dropWhile_head_not (· == 0) l c t'' ?_
            rw [← ht, htc]
          rw [h1, List.getLast?_reverse, htc]
          simp only [List.head?_cons, ne_eq, Option.some.injEq]
          simpa using hc
      · rw [hstrip, List.getLast?_reverse, hcase]
        simp only [List.head?_cons, ne_eq, Option.some.injEq]
        simpa using hahead

theorem mk_pics_getD (data : List Int) (t i : Nat) (hi : i < 8) :
    (mkIconDataFrom data t).pics.getD i default
      = ⟨data.getD (16 + 8 * t + i) 0, data.getD (48 + 8 * t + i) 0⟩ := by
  simp only [mkIconDataFrom]
  rw [getD_map_range _ 8 i hi]

theorem mk_pics_offset (data : List Int) (t i : Nat) (hi : i < 8) :
    ((mkIconDataFrom data t).pics.getD i default).offset
      = data.getD (16 + 8 * t + i) 0 := by
  rw [mk_pics_getD data t i hi]

theorem mk_pics_size (data : List Int) (t i : Nat) (hi : i < 8) :
    ((mkIconDataFrom data t).pics.getD i default).size
      = data.getD (48 + 8 * t + i) 0 := by
  rw [mk_pics_getD data t i hi]

/-- Modelled from the spec's words for comparison (claim C2): "the first 48
bytes interpreted as ASCII with trailing NUL bytes stripped" — a strip of
NUL bytes from the END only. -/
def specKeyTrailingStripped (keyField : List Nat) : List Nat :=
  (keyField.reverse.dropWhile (· == 0)).reverse

/-- A 368-byte record whose key field starts with a NUL byte:
`[0, 65 ('A'), 0, ...]`, data all zero. -/
def c2bad : List Nat := [0, 65] ++ List.replicate 46 0 ++ List.replicate 320 0

/-- **C2** counterexample: on `c2bad` the decoder yields key `[65]`
(`"A"`) because Python `strip('\x00')` removes NUL bytes from BOTH ends,
while the claim's "trailing NUL bytes stripped" demands `[0, 65]`
(`"\x00A"`).  The claim as stated is therefore false. -/
theorem C2_counterexample :
    (decodeResourceIcon c2bad).map ResourceIcon.key = some [65] ∧
    specKeyTrailingStripped (c2bad.take 48) = [0, 65] ∧
    (decodeResourceIcon c2bad).map ResourceIcon.key ≠
      some (specKeyTrailingStripped (c2bad.take 48)) := by decide

/-- **C2 (amended)**: decoding exactly 368 bytes whose key field is ASCII
yields a `ResourceIcon` whose key is the first 48 bytes with NUL bytes
stripped from BOTH ends (leading and trailing), and whose 80 remaining
fields are consecutive little-endian signed 32-bit integers (integer `k`
occupying bytes `48+4k .. 48+4k+3`) assigned in the fixed order of the
claim: indices 0-3 width for (low,high,xlow,xhigh), 4-7 height, 8-11 x,
12-15 y, 16-23 low offsets, 24-31 high offsets, 32-39 xlow offsets, 40-47
xhigh offsets, 48-55 low sizes, 56-63 high sizes, 64-71 xlow sizes, 72-79
xhigh sizes. -/
theorem C2_decode_layout_amended (b : List Nat) (hlen : b.length = 368)
    (hascii : (b.take 48).all (· < 128) = true) :
    ∃ e, decodeResourceIcon b = some e ∧
      e.key = pyStrip0 (b.take 48) ∧
      (∃ m n, b.take 48 = List.replicate m 0 ++ e.key ++ List.replicate n 0 ∧
        (e.key = [] ∨ (e.key.head? ≠ some 0 ∧ e.key.getLast? ≠ some 0))) ∧
      (e.low.width = leInt32 b 48 ∧ e.high.width = leInt32 b 52 ∧
        e.xlow.width = leInt32 b 56 ∧ e.xhigh.width = leInt32 b 60) ∧
      (e.low.height = leInt32 b 64 ∧ e.high.height = leInt32 b 68 ∧
        e.xlow.height = leInt32 b 72 ∧ e.xhigh.height = leInt32 b 76) ∧
      (e.low.x = leInt32 b 80 ∧ e.high.x = leInt32 b 84 ∧
        e.xlow.x = leInt32 b 88 ∧ e.xhigh.x = leInt32 b 92) ∧
      (e.low.y = leInt32 b 96 ∧ e.high.y = leInt32 b 100 ∧
        e.xlow.y = leInt32 b 104 ∧ e.xhigh.y = leInt32 b 108) ∧
      (e.low.pics.length = 8 ∧ e.high.pics.length = 8 ∧
        e.xlow.pics.length = 8 ∧ e.xhigh.pics.length = 8) ∧
      (∀ i, i < 8 →
        (e.low.pics.getD i default).offset = leInt32 b (112 + 4 * i) ∧
        (e.high.pics.getD i default).offset = leInt32 b (144 + 4 * i) ∧
        (e.xlow.pics.getD i default).offset = leInt32 b (176 + 4 * i) ∧
        (e.xhigh.pics.getD i default).offset = leInt32 b (208 + 4 * i) ∧
        (e.low.pics.getD i default).size = leInt32 b (240 + 4 * i) ∧
        (e.high.pics.getD i default).size = leInt32 b (272 + 4 * i) ∧
        (e.xlow.pics.getD i default).size = leInt32 b (304 + 4 * i) ∧
        (e.xhigh.pics.getD i default).size = leInt32 b (336 + 4 * i)) := by
  refine ⟨_, decode_eq b hlen hascii, rfl, pyStrip0_spec (b.take 48), ?_, ?_, ?_, ?_, ?_, ?_⟩
  · exact ⟨dataInt_byte b hlen 0 (by omega), dataInt_byte b hlen 1 (by omega),
      dataInt_byte b hlen 2 (by omega), dataInt_byte b hlen 3 (by omega)⟩
  · exact ⟨dataInt_byte b hlen 4 (by omega), dataInt_byte b hlen 5 (by omega),
      dataInt_byte b hlen 6 (by omega), dataInt_byte b hlen 7 (by omega)⟩
  · exact ⟨dataInt_byte b hlen 8 (by omega), dataInt_byte b hlen 9 (by omega),
      dataInt_byte b hlen 10 (by omega), dataInt_byte b hlen 11 (by omega)⟩
  · exact ⟨dataInt_byte b hlen 12 (by omega), dataInt_byte b hlen 13 (by omega),
      dataInt_byte b hlen 14 (by omega), dataInt_byte b hlen 15 (by omega)⟩
  · exact ⟨by simp [mkIconDataFrom], by simp [mkIconDataFrom],
      by simp [mkIconDataFrom], by simp [mkIconDataFrom]⟩
  · intro i hi
    refine ⟨?_, ?_, ?_, ?_, ?_, ?_, ?_, ?_⟩ <;>
      first
      | (rw [show (112 : Nat) + 4 * i = 48 + 4 * (16 + 8 * 0 + i) from by ring,
          mk_pics_offset _ 0 i hi, dataInt_byte b hlen (16 + 8 * 0 + i) (by omega)])
      | (rw [show (144 : Nat) + 4 * i = 48 + 4 * (16 + 8 * 1 + i) from by ring,
          mk_pics_offset _ 1 i hi, dataInt_byte b hlen (16 + 8 * 1 + i) (by omega)])
      | (rw [show (176 : Nat) + 4 * i = 48 + 4 * (16 + 8 * 2 + i) from by ring,
          mk_pics_offset _ 2 i hi, dataInt_byte b hlen (16 + 8 * 2 + i) (by omega)])
      | (rw [show (208 : Nat) + 4 * i = 48 + 4 * (16 + 8 * 3 + i) from by ring,
          mk_pics_offset _ 3 i hi, dataInt_byte b hlen (16 + 8 * 3 + i) (by omega)])
      | (rw [show (240 : Nat) + 4 * i = 48 + 4 * (48 + 8 * 0 + i) from by ring,
          mk_pics_size _ 0 i hi, dataInt_byte b hlen (48 + 8 * 0 + i) (by omega)])
      | (rw [show (272 : Nat) + 4 * i = 48 + 4 * (48 + 8 * 1 + i) from by ring,
          mk_pics_size _ 1 i hi, dataInt_byte b hlen (48 + 8 * 1 + i) (by omega)])
      | (rw [show (304 : Nat) + 4 * i = 48 + 4 * (48 + 8 * 2 + i) from by ring,
          mk_pics_size _ 2 i hi, dataInt_byte b hlen (48 + 8 * 2 + i) (by omega)])
      | (rw [show (336 : Nat) + 4 * i = 48 + 4 * (48 + 8 * 3 + i) from by ring,
          mk_pics_size _ 3 i hi, dataInt_byte b hlen (48 + 8 * 3 + i) (by omega)])

/-- Witness for **C2 (amended)** at the concrete record `demoRecord`. -/
theorem C2_decode_layout_amended_witness :
    demoRecord.length = 368 ∧ (demoRecord.take 48).all (· < 128) = true ∧
    (∃ e, decodeResourceIcon demoRecord = some e ∧
      e.key = pyStrip0 (demoRecord.take 48) ∧
      (∃ m n, demoRecord.take 48 = List.replicate m 0 ++ e.key ++ List.replicate n 0 ∧
        (e.key = [] ∨ (e.key.head? ≠ some 0 ∧ e.key.getLast? ≠ some 0))) ∧
      (e.low.width = leInt32 demoRecord 48 ∧ e.high.width = leInt32 demoRecord 52 ∧
        e.xlow.width = leInt32 demoRecord 56 ∧ e.xhigh.width = leInt32 demoRecord 60) ∧
      (e.low.height = leInt32 demoRecord 64 ∧ e.high.height = leInt32 demoRecord 68 ∧
        e.xlow.height = leInt32 demoRecord 72 ∧ e.xhigh.height = leInt32 demoRecord 76) ∧
      (e.low.x = leInt32 demoRecord 80 ∧ e.high.x = leInt32 demoRecord 84 ∧
        e.xlow.x = leInt32 demoRecord 88 ∧ e.xhigh.x = leInt32 demoRecord 92) ∧
      (e.low.y = leInt32 demoRecord 96 ∧ e.high.y = leInt32 demoRecord 100 ∧
        e.xlow.y = leInt32 demoRecord 104 ∧ e.xhigh.y = leInt32 demoRecord 108) ∧
      (e.low.pics.length = 8 ∧ e.high.pics.length = 8 ∧
        e.xlow.pics.length = 8 ∧ e.xhigh.pics.length = 8) ∧
      (∀ i, i < 8 →
        (e.low.pics.getD i default).offset = leInt32 demoRecord (112 + 4 * i) ∧
        (e.high.pics.getD i default).offset = leInt32 demoRecord (144 + 4 * i) ∧
        (e.xlow.pics.getD i default).offset = leInt32 demoRecord (176 + 4 * i) ∧
        (e.xhigh.pics.getD i default).offset = leInt32 demoRecord (208 + 4 * i) ∧
        (e.low.pics.getD i default).size = leInt32 demoRecord (240 + 4 * i) ∧
        (e.high.pics.getD i default).size = leInt32 demoRecord (272 + 4 * i) ∧
        (e.xlow.pics.getD i default).size = leInt32 demoRecord (304 + 4 * i) ∧
        (e.xhigh.pics.getD i default).size = leInt32 demoRecord (336 + 4 * i))) :=
  ⟨by decide, by decide, C2_decode_layout_amended demoRecord (by decide) (by decide)⟩

/-! ### C8: key length on encode -/

theorem packInt32_length (v : Int) : (packInt32 v).length = 4 := rfl

theorem encodeData_length (r : ResourceIcon) : (encodeData r).length = 320 := by
  rw [encodeData, show List.range 8 = [0, 1, 2, 3, 4, 5, 6, 7] from rfl]
  simp [packInt32_length]

/-- The all-zero `IconData` with 8 empty slots (as `IconData()` builds). -/
def zeroIconData : IconData := ⟨0, 0, 0, 0, List.replicate 8 ⟨0, 0⟩⟩

/-- An icon whose ASCII key is 49 bytes long (49 × `'a'`). -/
def longKeyIcon : ResourceIcon :=
  ⟨List.replicate 49 97, zeroIconData, zeroIconData, zeroIconData, zeroIconData⟩

/-- **C8** counterexample: `to_byte_array` does NOT fail on a key longer
than 48 bytes — there is no `KeyTooLong` check in the code; it silently
produces a 369-byte (non-368-byte) record. -/
theorem C8_counterexample :
    ResourceIcon.to_byte_array longKeyIcon ≠ none ∧
    (ResourceIcon.to_byte_array longKeyIcon).map List.length = some 369 := by decide

/-- **C8 (amended)**: `to_byte_array` performs no key-length check and
never fails with a `KeyTooLong` error: for an ASCII key (and values fitting
signed 32 bits, with the 8 slots present) it always succeeds; the key is
right-padded with NUL bytes to 48 and the output is exactly 368 bytes when
the key is at most 48 bytes, while a longer key silently yields
`320 + keyLength` bytes with no padding. -/
theorem C8_encode_amended (r : ResourceIcon)
    (hkey : r.key.all (· < 128) = true)
    (h1 : r.low.valsOk = true) (h2 : r.high.valsOk = true)
    (h3 : r.xlow.valsOk = true) (h4 : r.xhigh.valsOk = true) :
    ∃ out, r.to_byte_array = some out ∧
      out = r.key ++ List.replicate (48 - r.key.length) 0 ++ encodeData r ∧
      (r.key.length ≤ 48 → out.length = 368) ∧
      (48 < r.key.length → out.length = 320 + r.key.length) := by
  refine ⟨_, ?_, rfl, ?_, ?_⟩
  · simp only [ResourceIcon.to_byte_array, hkey, h1, h2, h3, h4, Bool.and_self,
      Bool.and_true, Bool.true_and, if_true]
    rfl
  · intro hle
    simp [List.length_append, encodeData_length]
    omega
  · intro hgt
    simp [List.length_append, encodeData_length]
    omega

/-- Witness for **C8 (amended)** at the concrete icon `longKeyIcon`. -/
theorem C8_encode_amended_witness :
    longKeyIcon.key.all (· < 128) = true ∧ longKeyIcon.low.valsOk = true ∧
    (∃ out, longKeyIcon.to_byte_array = some out ∧
      out = longKeyIcon.key ++ List.replicate (48 - longKeyIcon.key.length) 0 ++
        encodeData longKeyIcon ∧
      (longKeyIcon.key.length ≤ 48 → out.length = 368) ∧
      (48 < longKeyIcon.key.length → out.length = 320 + longKeyIcon.key.length)) :=
  ⟨by decide, by decide,
    C8_encode_amended longKeyIcon (by decide) (by decide) (by decide) (by decide) (by decide)⟩

/-! ### Catalog reader (`IconResources.__init__`) and writer
(`IconResources._output_index_file`) -/

/-- Split a byte string at every `\n` (byte 10), like Python
`bytes.split(b'\n')`: all parts are kept, including empty ones. -/
def splitOnNl : List Nat → List (List Nat)
  | [] => [[]]
  | c :: rest =>
      match splitOnNl rest with
      | [] => [[]]
      | h :: t => if c = 10 then [] :: h :: t else (c :: h) :: t

/-- Python `str.strip()` whitespace (the header fields are ASCII). -/
def isPySpace (c : Nat) : Bool :=
  c == 32 || c == 9 || c == 10 || c == 13 || c == 11 || c == 12

/-- Drop matching bytes from the end of a list. -/
def dropTrailWhile (p : Nat → Bool) (l : List Nat) : List Nat :=
  (l.reverse.dropWhile p).reverse

/-- Python `line.decode('ascii').rstrip('\x00').strip()` applied to one
header line (the caller checks the ASCII condition). -/
def pyStripField (l : List Nat) : List Nat :=
  dropTrailWhile isPySpace ((dropTrailWhile (· == 0) l).dropWhile isPySpace)

/-- The distinct failure modes of `IconResources.__init__`:
`headerOutOfRange` = Python `IndexError` on `lines[k]`,
`headerNonAscii` = `UnicodeDecodeError` on a header field,
`sentinelMissing` = the `offset == -1` `sys.exit(1)` path,
`recordNonAscii` = `UnicodeDecodeError` inside `ResourceIcon.__init__`. -/
inductive ReadErr where
  | headerOutOfRange
  | headerNonAscii
  | sentinelMissing
  | recordNonAscii
deriving DecidableEq

/-- Reading `lines[k].decode('ascii').rstrip('\x00').strip()`. -/
def headerField (lines : List (List Nat)) (k : Nat) : Except ReadErr (List Nat) :=
  match lines[k]? with
  | none => .error .headerOutOfRange
  | some l => if l.all (· < 128) then .ok (pyStripField l) else .error .headerNonAscii

/-- `bytes.find`: the least index at which `pat` occurs in the remainder,
`none` when absent. -/
def findPatternAux (pat : List Nat) : List Nat → Nat → Option Nat
  | [], i => if pat.isPrefixOf [] then some i else none
  | c :: rest, i =>
      if pat.isPrefixOf (c :: rest) then some i else findPatternAux pat rest (i + 1)

/-- `buf.find(pat)` (as `Option`; Python returns `-1` for `none`). -/
def findPattern (buf pat : List Nat) : Option Nat := findPatternAux pat buf 0

/-- The in-memory catalog built by `IconResources.__init__`: the five
header fields, the bytes preceding the first sentinel occurrence (the
spec's header prefix, which the writer re-derives from the original file),
and the decoded records. -/
structure Catalog where
  name : List Nat
  low_resolution_data_file : List Nat
  high_resolution_data_file : List Nat
  xlow_resolution_data_file : List Nat
  xhigh_resolution_data_file : List Nat
  headerBytes : List Nat
  icons : List ResourceIcon
deriving DecidableEq

instance {ε α : Type} [DecidableEq ε] [DecidableEq α] : DecidableEq (Except ε α) := fun x y =>
  match x, y with
  | .error e, .error e' =>
      if h : e = e' then .isTrue (h ▸ rfl) else .isFalse fun hc => h (Except.error.inj hc)
  | .error _, .ok _ => .isFalse fun hc => Except.noConfusion hc
  | .ok _, .error _ => .isFalse fun hc => Except.noConfusion hc
  | .ok a, .ok a' =>
      if h : a = a' then .isTrue (h ▸ rfl) else .isFalse fun hc => h (Except.ok.inj hc)

/-- Sequence a list of options (Python: the loop aborts at the first
record whose decode raises). -/
def optionAll {α : Type} : List (Option α) → Option (List α)
  | [] => some []
  | none :: _ => none
  | some a :: rest => (optionAll rest).map (a :: ·)

/-- `IconResources.__init__` on the index-file bytes: split the first 512
bytes on newlines and read five header fields, search the whole buffer for
the sentinel `b"Spinner_12"`, then decode `(len - offset) // 368`
consecutive 368-byte records starting at the sentinel offset. -/
def readCatalog (buf : List Nat) : Except ReadErr Catalog :=
  let lines := splitOnNl (buf.take 512)
  match headerField lines 0 with
  | .error e => .error e
  | .ok name =>
  match headerField lines 1 with
  | .error e => .error e
  | .ok lowF =>
  match headerField lines 2 with
  | .error e => .error e
  | .ok highF =>
  match headerField lines 3 with
  | .error e => .error e
  | .ok xlowF =>
  match headerField lines 4 with
  | .error e => .error e
  | .ok xhighF =>
  match findPattern buf first_key_name with
  | none => .error .sentinelMissing
  | some offset =>
      match optionAll ((List.range ((buf.length - offset) / 368)).map fun i =>
          decodeResourceIcon ((buf.drop (offset + 368 * i)).take 368)) with
      | none => .error .recordNonAscii
      | some icons =>
          .ok ⟨name, lowF, highF, xlowF, xhighF, buf.take offset, icons⟩

/-- `IconResources._output_index_file`: re-read the original file, take
everything before the first sentinel occurrence (`buf[:offset]`; Python's
`buf[:-1]` when `find` returns `-1`), then append `to_byte_array` of every
icon in order.  `none` when an encode raises. -/
def outputIndexFile (original_buf : List Nat) (icons : List ResourceIcon) :
    Option (List Nat) :=
  let header_bytes := match findPattern original_buf first_key_name with
    | some offset => original_buf.take offset
    | none => original_buf.take (original_buf.length - 1)
  (optionAll (icons.map ResourceIcon.to_byte_array)).map fun recs =>
    header_bytes ++ recs.flatten

/-! ### Reader lemmas -/

theorem optionAll_length {α : Type} : ∀ (l : List (Option α)) (xs : List α),
    optionAll l = some xs → xs.length = l.length
  | [], xs, h => by
      simp only [optionAll, Option.some.injEq] at h
      simp [← h]
  | none :: rest, xs, h => by simp [optionAll] at h
  | some a :: rest, xs, h => by
      simp only [optionAll, Option.map_eq_some'] at h
      obtain ⟨ys, hys, rfl⟩ := h
      simp [optionAll_length rest ys hys]

theorem optionAll_get? {α : Type} : ∀ (l : List (Option α)) (xs : List α),
    optionAll l = some xs → ∀ k : Nat, l[k]? = (xs[k]?).map some
  | [], xs, h, k => by
      simp only [optionAll, Option.some.injEq] at h
      subst h
      simp
  | none :: rest, xs, h, k => by simp [optionAll] at h
  | some a :: rest, xs, h, k => by
      simp only [optionAll, Option.map_eq_some'] at h
      obtain ⟨ys, hys, rfl⟩ := h
      cases k with
      | zero => simp
      | succ k => simpa using optionAll_get? rest ys hys k

theorem optionAll_map_some {α : Type} : ∀ l : List α, optionAll (l.map some) = some l
  | [] => rfl
  | a :: rest => by simp [optionAll, optionAll_map_some rest]

/-- The byte pattern `pat` occurs in `buf` at offset `i`. -/
def patternAt (buf pat : List Nat) (i : Nat) : Prop :=
  pat.isPrefixOf (buf.drop i) = true

theorem findPatternAux_some (pat : List Nat) : ∀ (l : List Nat) (i0 j : Nat),
    findPatternAux pat l i0 = some j →
    i0 ≤ j ∧ pat.isPrefixOf (l.drop (j - i0)) = true ∧
      ∀ j', i0 ≤ j' → j' < j → ¬ pat.isPrefixOf (l.drop (j' - i0)) = true
  | [], i0, j, h => by
      simp only [findPatternAux] at h
      split at h
      · next hp =>
        injection h with h'
        subst h'
        exact ⟨le_refl _, by simpa using hp,
          fun j' h1 h2 => absurd (lt_of_le_of_lt h1 h2) (lt_irrefl _)⟩
      · exact Option.noConfusion h
  | c :: rest, i0, j, h => by
      simp only [findPatternAux] at h
      split at h
      · next hp =>
        injection h with h'
        subst h'
        exact ⟨le_refl _, by simpa using hp,
          fun j' h1 h2 => absurd (lt_of_le_of_lt h1 h2) (lt_irrefl _)⟩
      · next hp =>
        obtain ⟨hle, hpre, hmin⟩ := findPatternAux_some pat rest (i0 + 1) j h
        refine ⟨by omega, ?_, ?_⟩
        · rw [show j - i0 = (j - (i0 + 1)) + 1 from by omega, List.drop_succ_cons]
          exact hpre
        · intro j' h1 h2
          rcases Nat.eq_or_lt_of_le h1 with rfl | hlt
          · simpa using hp
          · rw [show j' - i0 = (j' - (i0 + 1)) + 1 from by omega, List.drop_succ_cons]
            exact hmin j' (by omega) h2

theorem findPatternAux_none (pat : List Nat) : ∀ (l : List Nat) (i0 : Nat),
    findPatternAux pat l i0 = none → ∀ d, ¬ pat.isPrefixOf (l.drop d) = true
  | [], i0, h, d => by
      simp only [findPatternAux] at h
      split at h
      · exact Option.noConfusion h
      · next hp =>
        intro hc
        rw [List.drop_nil] at hc
        exact hp hc
  | c :: rest, i0, h, d => by
      simp only [findPatternAux] at h
      split at h
      · exact Option.noConfusion h
      · next hp =>
        cases d with
        | zero => simpa using hp
        | succ d =>
            rw [List.drop_succ_cons]
            exact findPatternAux_none pat rest (i0 + 1) h d

/-- `bytes.find` returns the FIRST occurrence. -/
theorem findPattern_some (buf pat : List Nat) (j : Nat)
    (h : findPattern buf pat = some j) :
    patternAt buf pat j ∧ ∀ j' < j, ¬ patternAt buf pat j' := by
  obtain ⟨_, hpre, hmin⟩ := findPatternAux_some pat buf 0 j h
  refine ⟨by simpa [patternAt] using hpre, fun j' hj' => ?_⟩
  have := hmin j' (Nat.zero_le _) hj'
  simpa [patternAt] using this

/-- `bytes.find` returns `-1` only when the pattern occurs nowhere. -/
theorem findPattern_none (buf pat : List Nat) (h : findPattern buf pat = none) :
    ∀ j, ¬ patternAt buf pat j := by
  intro j
  simpa [patternAt] using findPatternAux_none pat buf 0 h j

theorem splitOnNl_length : ∀ l : List Nat, (splitOnNl l).length = l.count 10 + 1
  | [] => rfl
  | c :: rest => by
      simp only [splitOnNl]
      cases hs : splitOnNl rest with
      | nil =>
          have := splitOnNl_length rest
          rw [hs] at this
          simp at this
      | cons h t =>
          dsimp only
          have hr := splitOnNl_length rest
          rw [hs] at hr
          simp only [List.length_cons] at hr
          by_cases hc : c = 10
          · subst hc
            simp only [if_pos rfl, List.length_cons, List.count_cons]
            simp
            omega
          · rw [if_neg hc]
            simp only [List.length_cons, List.count_cons]
            simp [hc]
            omega

theorem splitOnNl_mem : ∀ (l : List Nat) (part : List Nat), part ∈ splitOnNl l →
    ∀ x ∈ part, x ∈ l
  | [], part, hp, x, hx => by
      simp only [splitOnNl, List.mem_singleton] at hp
      subst hp
      simp at hx
  | c :: rest, part, hp, x, hx => by
      simp only [splitOnNl] at hp
      cases hs : splitOnNl rest with
      | nil =>
          have := splitOnNl_length rest
          rw [hs] at this
          simp at this
      | cons h t =>
          rw [hs] at hp
          dsimp only at hp
          by_cases hc : c = 10
          · rw [if_pos hc] at hp
            rcases List.mem_cons.mp hp with rfl | hp'
            · simp at hx
            · have hmem : part ∈ splitOnNl rest := by rw [hs]; exact hp'
              exact List.mem_cons_of_mem _ (splitOnNl_mem rest part hmem x hx)
          · rw [if_neg hc] at hp
            rcases List.mem_cons.mp hp with rfl | hp'
            · rcases List.mem_cons.mp hx with rfl | hx'
              · exact List.mem_cons_self _ _
              · have hmem : h ∈ splitOnNl rest := by rw [hs]; simp
                exact List.mem_cons_of_mem _ (splitOnNl_mem rest h hmem x hx')
            · have hmem : part ∈ splitOnNl rest := by
                rw [hs]; exact List.mem_cons_of_mem _ hp'
              exact List.mem_cons_of_mem _ (splitOnNl_mem rest part hmem x hx)

theorem headerField_ok_of_lt (lines : List (List Nat)) (k : Nat)
    (hk : k < lines.length) (hascii : ∀ part ∈ lines, part.all (· < 128) = true) :
    ∃ v, headerField lines k = .ok v := by
  have hsome : lines[k]? = some lines[k] := List.getElem?_eq_some.mpr ⟨hk, rfl⟩
  refine ⟨pyStripField lines[k], ?_⟩
  simp [headerField, hsome, hascii lines[k] (lines.getElem_mem hk)]

theorem headerField_oob (lines : List (List Nat)) (k : Nat) (hk : lines.length ≤ k) :
    headerField lines k = .error .headerOutOfRange := by
  simp [headerField, List.getElem?_eq_none hk]

/-- If the five header fields parse, `readCatalog` reduces to the sentinel
search followed by record decoding. -/
theorem readCatalog_with_header (buf : List Nat) (v0 v1 v2 v3 v4 : List Nat)
    (e0 : headerField (splitOnNl (buf.take 512)) 0 = .ok v0)
    (e1 : headerField (splitOnNl (buf.take 512)) 1 = .ok v1)
    (e2 : headerField (splitOnNl (buf.take 512)) 2 = .ok v2)
    (e3 : headerField (splitOnNl (buf.take 512)) 3 = .ok v3)
    (e4 : headerField (splitOnNl (buf.take 512)) 4 = .ok v4) :
    readCatalog buf =
      match findPattern buf first_key_name with
      | none => .error .sentinelMissing
      | some offset =>
          match optionAll ((List.range ((buf.length - offset) / 368)).map fun i =>
              decodeResourceIcon ((buf.drop (offset + 368 * i)).take 368)) with
          | none => .error .recordNonAscii
          | some icons => .ok ⟨v0, v1, v2, v3, v4, buf.take offset, icons⟩ := by
  simp only [readCatalog]
  rw [e0, e1, e2, e3, e4]

/-- Dissection of a successful read. -/
theorem readCatalog_ok_elim (buf : List Nat) (cat : Catalog)
    (h : readCatalog buf = .ok cat) :
    ∃ offset, findPattern buf first_key_name = some offset ∧
      cat.headerBytes = buf.take offset ∧
      optionAll ((List.range ((buf.length - offset) / 368)).map fun i =>
          decodeResourceIcon ((buf.drop (offset + 368 * i)).take 368)) = some cat.icons := by
  simp only [readCatalog] at h
  cases e0 : headerField (splitOnNl (buf.take 512)) 0 with
  | error e => rw [e0] at h; exact Except.noConfusion h
  | ok v0 =>
  rw [e0] at h
  cases e1 : headerField (splitOnNl (buf.take 512)) 1 with
  | error e => rw [e1] at h; exact Except.noConfusion h
  | ok v1 =>
  rw [e1] at h
  cases e2 : headerField (splitOnNl (buf.take 512)) 2 with
  | error e => rw [e2] at h; exact Except.noConfusion h
  | ok v2 =>
  rw [e2] at h
  cases e3 : headerField (splitOnNl (buf.take 512)) 3 with
  | error e => rw [e3] at h; exact Except.noConfusion h
  | ok v3 =>
  rw [e3] at h
  cases e4 : headerField (splitOnNl (buf.take 512)) 4 with
  | error e => rw [e4] at h; exact Except.noConfusion h
  | ok v4 =>
  rw [e4] at h
  cases hf : findPattern buf first_key_name with
  | none => rw [hf] at h; exact Except.noConfusion h
  | some offset =>
  rw [hf] at h
  replace h : (match optionAll ((List.range ((buf.length - offset) / 368)).map fun i =>
      decodeResourceIcon ((buf.drop (offset + 368 * i)).take 368)) with
    | none => (.error .recordNonAscii : Except ReadErr Catalog)
    | some icons => .ok ⟨v0, v1, v2, v3, v4, buf.take offset, icons⟩) = .ok cat := h
  cases ho : optionAll ((List.range ((buf.length - offset) / 368)).map fun i =>
      decodeResourceIcon ((buf.drop (offset + 368 * i)).take 368)) with
  | none => rw [ho] at h; exact Except.noConfusion h
  | some icons =>
  rw [ho] at h
  have hcat : (⟨v0, v1, v2, v3, v4, buf.take offset, icons⟩ : Catalog) = cat :=
    Except.ok.inj h
  exact ⟨offset, rfl, by rw [← hcat], by rw [← hcat]; exact ho⟩

/-- **C7**: whenever the reader accepts an index file, the number of
entries produced equals ⌊(file length − sentinel offset) / 368⌋, each entry
decoded from the consecutive 368-byte chunk at `offset + 368·k` in file
order; a trailing partial chunk is dropped rather than causing an error. -/
theorem C7_truncation_tolerance (buf : List Nat) (cat : Catalog)
    (h : readCatalog buf = .ok cat) :
    ∃ offset, findPattern buf first_key_name = some offset ∧
      cat.icons.length = (buf.length - offset) / 368 ∧
      ∀ k : Nat, k < cat.icons.length →
        decodeResourceIcon ((buf.drop (offset + 368 * k)).take 368) = cat.icons[k]? := by
  obtain ⟨offset, hf, _, ho⟩ := readCatalog_ok_elim buf cat h
  have hlen : cat.icons.length = (buf.length - offset) / 368 := by
    have := optionAll_length _ _ ho
    simpa using this
  refine ⟨offset, hf, hlen, fun k hk => ?_⟩
  have hget := optionAll_get? _ _ ho k
  have hklt : k < (buf.length - offset) / 368 := by omega
  have hl : ((List.range ((buf.length - offset) / 368)).map fun i =>
      decodeResourceIcon ((buf.drop (offset + 368 * i)).take 368))[k]?
        = some (decodeResourceIcon ((buf.drop (offset + 368 * k)).take 368)) := by
    rw [List.getElem?_map, List.getElem?_range hklt]
    rfl
  rw [hl] at hget
  have hicon : cat.icons[k]? = some cat.icons[k] :=
    List.getElem?_eq_some.mpr ⟨hk, rfl⟩
  rw [hicon] at hget ⊢
  simpa using hget

/-- The demo header
`"Demo\nLowData.bin\nHighData.bin\nXLowData.bin\nXHighData.bin\n"`. -/
def demoHeader : List Nat :=
  [68, 101, 109, 111, 10] ++
  [76, 111, 119, 68, 97, 116, 97, 46, 98, 105, 110, 10] ++
  [72, 105, 103, 104, 68, 97, 116, 97, 46, 98, 105, 110, 10] ++
  [88, 76, 111, 119, 68, 97, 116, 97, 46, 98, 105, 110, 10] ++
  [88, 72, 105, 103, 104, 68, 97, 116, 97, 46, 98, 105, 110, 10]

/-- The demo index file: header plus one `Spinner_12` record. -/
def demoIdx : List Nat := demoHeader ++ demoRecord

/-- The decoded form of `demoRecord`. -/
def demoIcon : ResourceIcon :=
  ⟨first_key_name,
    ⟨0, 0, 0, 0, ⟨4, 10⟩ :: List.replicate 7 ⟨0, 0⟩⟩,
    zeroIconData, zeroIconData, zeroIconData⟩

/-- The catalog the reader builds from `demoIdx`. -/
def demoCatalog : Catalog :=
  ⟨[68, 101, 109, 111],
    [76, 111, 119, 68, 97, 116, 97, 46, 98, 105, 110],
    [72, 105, 103, 104, 68, 97, 116, 97, 46, 98, 105, 110],
    [88, 76, 111, 119, 68, 97, 116, 97, 46, 98, 105, 110],
    [88, 72, 105, 103, 104, 68, 97, 116, 97, 46, 98, 105, 110],
    demoHeader, [demoIcon]⟩

/-- Witness for **C7** on the demo file with 3 trailing stray bytes: the
reader accepts it, produces ⌊368+3⌋/368 = 1 entry, and drops the tail. -/
theorem C7_truncation_tolerance_witness :
    readCatalog (demoIdx ++ [7, 7, 7]) = .ok demoCatalog ∧
    (∃ offset, findPattern (demoIdx ++ [7, 7, 7]) first_key_name = some offset ∧
      demoCatalog.icons.length = ((demoIdx ++ [7, 7, 7]).length - offset) / 368 ∧
      ∀ k : Nat, k < demoCatalog.icons.length →
        decodeResourceIcon (((demoIdx ++ [7, 7, 7]).drop (offset + 368 * k)).take 368)
          = demoCatalog.icons[k]?) :=
  ⟨by decide, C7_truncation_tolerance _ _ (by decide)⟩

/-- **C9** counterexample: on the empty index file the sentinel is absent,
yet the reader does not fail with the `IndexNotFound` error
(`sentinelMissing`); it fails earlier with an uncontrolled `IndexError`
while splitting the header.  "Fails with IndexNotFound iff the sentinel is
absent" is therefore false as stated. -/
theorem C9_counterexample :
    findPattern [] first_key_name = none ∧
    readCatalog [] ≠ .error .sentinelMissing ∧
    readCatalog [] = .error .headerOutOfRange := by decide

/-- **C9 (amended)**: among index files whose five header fields parse, the
reader fails with `IndexNotFound` (`sentinelMissing`) iff the sentinel
pattern `b"Spinner_12"` occurs nowhere in the bytes; and whenever the
sentinel is found, its offset is the FIRST occurrence, and any catalog the
reader produces retains everything before that offset verbatim as the
header prefix. -/
theorem C9_sentinel_amended (buf : List Nat)
    (h0 : (headerField (splitOnNl (buf.take 512)) 0).isOk = true)
    (h1 : (headerField (splitOnNl (buf.take 512)) 1).isOk = true)
    (h2 : (headerField (splitOnNl (buf.take 512)) 2).isOk = true)
    (h3 : (headerField (splitOnNl (buf.take 512)) 3).isOk = true)
    (h4 : (headerField (splitOnNl (buf.take 512)) 4).isOk = true) :
    (readCatalog buf = .error .sentinelMissing ↔
      ¬ ∃ j, patternAt buf first_key_name j) ∧
    ∀ offset, findPattern buf first_key_name = some offset →
      patternAt buf first_key_name offset ∧
      (∀ j < offset, ¬ patternAt buf first_key_name j) ∧
      ∀ cat, readCatalog buf = .ok cat → cat.headerBytes = buf.take offset := by
  obtain ⟨v0, e0⟩ : ∃ v, headerField (splitOnNl (buf.take 512)) 0 = .ok v := by
    cases hh : headerField (splitOnNl (buf.take 512)) 0 with
    | error e => rw [hh] at h0; simp [Except.isOk, Except.toBool] at h0
    | ok v => exact ⟨v, rfl⟩
  obtain ⟨v1, e1⟩ : ∃ v, headerField (splitOnNl (buf.take 512)) 1 = .ok v := by
    cases hh : headerField (splitOnNl (buf.take 512)) 1 with
    | error e => rw [hh] at h1; simp [Except.isOk, Except.toBool] at h1
    | ok v => exact ⟨v, rfl⟩
  obtain ⟨v2, e2⟩ : ∃ v, headerField (splitOnNl (buf.take 512)) 2 = .ok v := by
    cases hh : headerField (splitOnNl (buf.take 512)) 2 with
    | error e => rw [hh] at h2; simp [Except.isOk, Except.toBool] at h2
    | ok v => exact ⟨v, rfl⟩
  obtain ⟨v3, e3⟩ : ∃ v, headerField (splitOnNl (buf.take 512)) 3 = .ok v := by
    cases hh : headerField (splitOnNl (buf.take 512)) 3 with
    | error e => rw [hh] at h3; simp [Except.isOk, Except.toBool] at h3
    | ok v => exact ⟨v, rfl⟩
  obtain ⟨v4, e4⟩ : ∃ v, headerField (splitOnNl (buf.take 512)) 4 = .ok v := by
    cases hh : headerField (splitOnNl (buf.take 512)) 4 with
    | error e => rw [hh] at h4; simp [Except.isOk, Except.toBool] at h4
    | ok v => exact ⟨v, rfl⟩
  have hred := readCatalog_with_header buf v0 v1 v2 v3 v4 e0 e1 e2 e3 e4
  constructor
  · cases hf : findPattern buf first_key_name with
    | none =>
        rw [hf] at hred
        constructor
        · intro _
          rintro ⟨j, hj⟩
          exact findPattern_none buf _ hf j hj
        · intro _
          exact hred
    | some off =>
        rw [hf] at hred
        constructor
        · intro hcontra
          rw [hred] at hcontra
          replace hcontra : (match optionAll ((List.range ((buf.length - off) / 368)).map fun i =>
              decodeResourceIcon ((buf.drop (off + 368 * i)).take 368)) with
            | none => (.error .recordNonAscii : Except ReadErr Catalog)
            | some icons => .ok ⟨v0, v1, v2, v3, v4, buf.take off, icons⟩)
              = .error .sentinelMissing := hcontra
          cases ho : optionAll ((List.range ((buf.length - off) / 368)).map fun i =>
              decodeResourceIcon ((buf.drop (off + 368 * i)).take 368)) with
          | none =>
              rw [ho] at hcontra
              exact ReadErr.noConfusion (Except.error.inj hcontra)
          | some icons =>
              rw [ho] at hcontra
              exact Except.noConfusion hcontra
        · intro hno
          exact absurd ⟨off, (findPattern_some buf _ off hf).1⟩ hno
  · intro offset hoff
    obtain ⟨hat, hmin⟩ := findPattern_some buf _ offset hoff
    refine ⟨hat, hmin, ?_⟩
    intro cat hcat
    obtain ⟨offset', hoff', hhdr, _⟩ := readCatalog_ok_elim buf cat hcat
    rw [hoff'] at hoff
    rw [hhdr, Option.some.inj hoff]

/-- Witness for **C9 (amended)** at the demo index file (sentinel present
at offset 57). -/
theorem C9_sentinel_amended_witness :
    (headerField (splitOnNl (demoIdx.take 512)) 0).isOk = true ∧
    ((readCatalog demoIdx = .error .sentinelMissing ↔
      ¬ ∃ j, patternAt demoIdx first_key_name j) ∧
    ∀ offset, findPattern demoIdx first_key_name = some offset →
      patternAt demoIdx first_key_name offset ∧
      (∀ j < offset, ¬ patternAt demoIdx first_key_name j) ∧
      ∀ cat, readCatalog demoIdx = .ok cat → cat.headerBytes = demoIdx.take offset) :=
  ⟨by decide, C9_sentinel_amended demoIdx (by decide) (by decide) (by decide)
    (by decide) (by decide)⟩

/-- **C10** counterexample: the one-byte file `[255]` has fewer than four
newlines in its first 512 bytes, but the reader fails with a
`UnicodeDecodeError` while ASCII-decoding the first header field — not
with the claimed index-out-of-range error. -/
theorem C10_counterexample :
    (([255] : List Nat).take 512).count 10 < 4 ∧
    readCatalog [255] ≠ .error .headerOutOfRange ∧
    readCatalog [255] = .error .headerNonAscii := by decide

/-- **C10 (amended)**: for every index file whose first 512 bytes are ASCII
and contain fewer than four newline bytes, the reader fails with the
uncontrolled index-out-of-range error while splitting the header — before
the sentinel search or any record decoding, and outside the spec's error
taxonomy. -/
theorem C10_header_crash_amended (buf : List Nat)
    (hascii : (buf.take 512).all (· < 128) = true)
    (hnl : (buf.take 512).count 10 < 4) :
    readCatalog buf = .error .headerOutOfRange := by
  have hmem : ∀ part ∈ splitOnNl (buf.take 512), part.all (· < 128) = true := by
    intro part hp
    rw [List.all_eq_true]
    intro x hx
    simpa using List.all_eq_true.mp hascii x (splitOnNl_mem _ part hp x hx)
  have hlen : (splitOnNl (buf.take 512)).length = (buf.take 512).count 10 + 1 :=
    splitOnNl_length _
  simp only [readCatalog]
  rcases (by omega : (splitOnNl (buf.take 512)).length = 1 ∨
      (splitOnNl (buf.take 512)).length = 2 ∨ (splitOnNl (buf.take 512)).length = 3 ∨
      (splitOnNl (buf.take 512)).length = 4) with h | h | h | h
  · obtain ⟨w0, f0⟩ := headerField_ok_of_lt _ 0 (by omega) hmem
    rw [f0, headerField_oob _ 1 (by omega)]
  · obtain ⟨w0, f0⟩ := headerField_ok_of_lt _ 0 (by omega) hmem
    obtain ⟨w1, f1⟩ := headerField_ok_of_lt _ 1 (by omega) hmem
    rw [f0, f1, headerField_oob _ 2 (by omega)]
  · obtain ⟨w0, f0⟩ := headerField_ok_of_lt _ 0 (by omega) hmem
    obtain ⟨w1, f1⟩ := headerField_ok_of_lt _ 1 (by omega) hmem
    obtain ⟨w2, f2⟩ := headerField_ok_of_lt _ 2 (by omega) hmem
    rw [f0, f1, f2, headerField_oob _ 3 (by omega)]
  · obtain ⟨w0, f0⟩ := headerField_ok_of_lt _ 0 (by omega) hmem
    obtain ⟨w1, f1⟩ := headerField_ok_of_lt _ 1 (by omega) hmem
    obtain ⟨w2, f2⟩ := headerField_ok_of_lt _ 2 (by omega) hmem
    obtain ⟨w3, f3⟩ := headerField_ok_of_lt _ 3 (by omega) hmem
    rw [f0, f1, f2, f3, headerField_oob _ 4 (by omega)]

/-- Witness for **C10 (amended)** at the concrete file `[65, 66]`
(two ASCII bytes, no newline). -/
theorem C10_header_crash_amended_witness :
    (([65, 66] : List Nat).take 512).all (· < 128) = true ∧
    (([65, 66] : List Nat).take 512).count 10 < 4 ∧
    readCatalog [65, 66] = .error .headerOutOfRange :=
  ⟨by decide, by decide, C10_header_crash_amended [65, 66] (by decide) (by decide)⟩

/-! ### C3: catalog read-then-write round-trip -/

theorem chunks368 (l : List Nat) : ∀ (c s : Nat), s + 368 * c ≤ l.length →
    ((List.range c).map fun i => (l.drop (s + 368 * i)).take 368).flatten
      = (l.drop s).take (368 * c) := by
  intro c
  induction c with
  | zero => simp
  | succ c ih =>
      intro s h
      rw [List.range_succ, List.map_append, List.flatten_append, ih s (by omega)]
      simp only [List.map_cons, List.map_nil, List.flatten_cons, List.flatten_nil,
        List.append_nil]
      rw [seg_merge l s (368 * c) (s + 368 * c) (368 * c + 368) 368 rfl rfl]
      rw [show 368 * (c + 1) = 368 * c + 368 from by ring]

/-- The file `demoIdx` with one stray trailing byte. -/
def c3bad : List Nat := demoIdx ++ [7]

/-- **C3** counterexample: the reader accepts `c3bad` (the partial trailing
chunk is silently dropped), but writing the catalog straight back produces
a file that is NOT byte-for-byte identical to the original — the stray
byte is lost.  The claim as stated (round-trip for every accepted file) is
false. -/
theorem C3_counterexample :
    (readCatalog c3bad).isOk = true ∧
    ((readCatalog c3bad).toOption.bind fun cat => outputIndexFile c3bad cat.icons)
      ≠ some c3bad := by decide

/-- **C3 (amended)**: reading an index file and immediately writing it back
reproduces the original file byte-for-byte, provided additionally that the
byte count after the sentinel offset is an exact multiple of 368 (no
discarded partial tail) and every 368-byte record chunk is well-formed
(NUL-padded ASCII key); the writer's output is the header prefix before the
first sentinel occurrence, re-derived from the original bytes, followed by
the re-encoded records in catalog order. -/
theorem C3_catalog_roundtrip_amended (buf : List Nat) (cat : Catalog) (offset : Nat)
    (h : readCatalog buf = .ok cat)
    (hoff : findPattern buf first_key_name = some offset)
    (hmul : (buf.length - offset) % 368 = 0)
    (hwf : ∀ k : Nat, k < (buf.length - offset) / 368 →
      wellFormedRecord ((buf.drop (offset + 368 * k)).take 368) = true) :
    outputIndexFile buf cat.icons = some buf := by
  obtain ⟨offset', hoff', hhdr, ho⟩ := readCatalog_ok_elim buf cat h
  have he : offset' = offset := by
    rw [hoff'] at hoff
    exact Option.some.inj hoff
  rw [he] at hoff' hhdr ho
  have hlen : cat.icons.length = (buf.length - offset) / 368 := by
    simpa using optionAll_length _ _ ho
  have hofflt : offset ≤ buf.length := by
    by_contra hgt
    push_neg at hgt
    have hat := (findPattern_some buf _ offset hoff').1
    rw [patternAt, List.drop_eq_nil_of_le (by omega)] at hat
    simp [first_key_name, List.isPrefixOf] at hat
  have hchunks : ((List.range ((buf.length - offset) / 368)).map fun i =>
      (buf.drop (offset + 368 * i)).take 368).flatten = buf.drop offset := by
    rw [chunks368 buf ((buf.length - offset) / 368) offset (by omega),
      show 368 * ((buf.length - offset) / 368) = buf.length - offset from by omega,
      ← List.length_drop]
    exact List.take_length _
  have hmap : cat.icons.map ResourceIcon.to_byte_array
      = ((List.range ((buf.length - offset) / 368)).map fun i =>
          (buf.drop (offset + 368 * i)).take 368).map some := by
    apply List.ext_getElem?_iff.mpr
    intro n
    rw [List.getElem?_map, List.getElem?_map]
    by_cases hn : n < (buf.length - offset) / 368
    · have hicon : cat.icons[n]? = some cat.icons[n] :=
        List.getElem?_eq_some.mpr ⟨by omega, rfl⟩
      have hget := optionAll_get? _ _ ho n
      have hl : ((List.range ((buf.length - offset) / 368)).map fun i =>
          decodeResourceIcon ((buf.drop (offset + 368 * i)).take 368))[n]?
            = some (decodeResourceIcon ((buf.drop (offset + 368 * n)).take 368)) := by
        rw [List.getElem?_map, List.getElem?_range hn]
        rfl
      rw [hl, hicon] at hget
      have hdec : decodeResourceIcon ((buf.drop (offset + 368 * n)).take 368)
          = some cat.icons[n] := by simpa using hget
      have hrt := record_roundtrip _ (hwf n hn)
      rw [hdec] at hrt
      simp only [Option.some_bind] at hrt
      rw [hicon, List.getElem?_map, List.getElem?_range hn]
      simp only [Option.map_some']
      rw [hrt]
    · have h1 : cat.icons[n]? = none := List.getElem?_eq_none (by omega)
      have h2 : (List.range ((buf.length - offset) / 368))[n]? = none :=
        List.getElem?_eq_none (by simpa using not_lt.mp hn)
      rw [h1, List.getElem?_map, h2]
      rfl
  simp only [outputIndexFile, hoff']
  rw [hmap, optionAll_map_some]
  simp only [Option.map_some']
  rw [hchunks, List.take_append_drop]

/-- Witness for **C3 (amended)** at the demo index file (one record, no
partial tail). -/
theorem C3_catalog_roundtrip_amended_witness :
    readCatalog demoIdx = .ok demoCatalog ∧
    findPattern demoIdx first_key_name = some 57 ∧
    (demoIdx.length - 57) % 368 = 0 ∧
    (∀ k : Nat, k < (demoIdx.length - 57) / 368 →
      wellFormedRecord ((demoIdx.drop (57 + 368 * k)).take 368) = true) ∧
    outputIndexFile demoIdx demoCatalog.icons = some demoIdx :=
  ⟨by decide, by decide, by decide, by decide,
    C3_catalog_roundtrip_amended demoIdx demoCatalog 57 (by decide) (by decide)
      (by decide) (by decide)⟩

/-! ### Pack engine (`IconResources.pack`) -/

/-- Decimal digits (ASCII) of `n`, as in Python f-string formatting (the
structural fuel `n + 1` always suffices since `n / 10 < n` for `n ≥ 10`). -/
def decimalDigitsAux (fuel n : Nat) : List Nat :=
  match fuel with
  | 0 => []
  | fuel + 1 =>
      if n < 10 then [48 + n] else decimalDigitsAux fuel (n / 10) ++ [48 + n % 10]

/-- Decimal digits (ASCII) of `n`. -/
def decimalDigits (n : Nat) : List Nat := decimalDigitsAux (n + 1) n

/-- The asset filename `f"{key}_s{i}.png"` (as bytes, relative to the tier
folder). -/
def slotFileName (key : List Nat) (i : Nat) : List Nat :=
  key ++ [95, 115] ++ decimalDigits i ++ [46, 112, 110, 103]

/-- The 4-byte magic preamble `b'fdrq'`. -/
def fdrq : List Nat := [102, 100, 114, 113]

/-- One slot of the per-tier repack loop: if the existing size hint is
positive AND the asset file exists in the tier folder (`fs` maps filenames
to contents), the slot is rewritten to the current cursor and the file
bytes are appended; otherwise both the state and the slot are unchanged.
The state is `(buf, offset)` exactly as the code keeps `low_buf` /
`low_offset`. -/
def packSlot (fs : List Nat → Option (List Nat)) (key : List Nat) (i : Nat)
    (st : List Nat × Nat) (p : PicInfo) : (List Nat × Nat) × PicInfo :=
  if 0 < p.size then
    match fs (slotFileName key i) with
    | some data => ((st.1 ++ data, st.2 + data.length), ⟨(st.2 : Int), (data.length : Int)⟩)
    | none => (st, p)
  else (st, p)

/-- The `for i in range(8)` repack loop over one tier's slot list. -/
def packPics (fs : List Nat → Option (List Nat)) (key : List Nat) :
    Nat → (List Nat × Nat) → List PicInfo → (List Nat × Nat) × List PicInfo
  | _, st, [] => (st, [])
  | i, st, p :: ps =>
      let r := packSlot fs key i st p
      let rs := packPics fs key (i + 1) r.1 ps
      (rs.1, r.2 :: rs.2)

/-- The per-icon loop of `pack`: for every icon, repack the low tier, then
the high tier, threading the two `(buf, offset)` states. -/
def packIcons (lowFs highFs : List Nat → Option (List Nat)) :
    (List Nat × Nat) → (List Nat × Nat) → List ResourceIcon →
      (List Nat × Nat) × (List Nat × Nat) × List ResourceIcon
  | stL, stH, [] => (stL, stH, [])
  | stL, stH, icon :: rest =>
      let rL := packPics lowFs icon.key 0 stL icon.low.pics
      let rH := packPics highFs icon.key 0 stH icon.high.pics
      let icon' := { icon with low := { icon.low with pics := rL.2 }
                               high := { icon.high with pics := rH.2 } }
      let rs := packIcons lowFs highFs rL.1 rH.1 rest
      (rs.1, rs.2.1, icon' :: rs.2.2)

/-- `pack`'s in-memory phase: both blobs start as `b'fdrq'` with cursor 4,
every icon is processed in order. -/
def packRun (icons : List ResourceIcon)
    (lowFs highFs : List Nat → Option (List Nat)) :
    (List Nat × Nat) × (List Nat × Nat) × List ResourceIcon :=
  packIcons lowFs highFs (fdrq, 4) (fdrq, 4) icons

/-- The whole of `IconResources.pack`: run the repack, then write (in the
code's order) the low data file, the high data file, and the regenerated
index file.  The result is the list of written files
`(file name, contents)`; `none` when re-encoding the index raises.
(The reads of the xlow/xhigh sidecars at the top of `pack` have no effect
on any output — `xlow_buf`/`xhigh_buf` are never used — and are omitted.) -/
def pack (cat : Catalog) (index_file_name : List Nat)
    (lowFs highFs : List Nat → Option (List Nat)) (original_buf : List Nat) :
    Option (List (List Nat × List Nat)) :=
  let r := packRun cat.icons lowFs highFs
  match outputIndexFile original_buf r.2.2 with
  | some out => some [(cat.low_resolution_data_file, r.1.1),
                      (cat.high_resolution_data_file, r.2.1.1),
                      (index_file_name, out)]
  | none => none

/-! #### Repacked-slot bookkeeping for C4/C5 -/

/-- The slots of one tier that this pack run actually rewrote (size hint
positive and asset file present), listed in slot order, with their
post-pack `PicInfo`.  `olds` are the pre-pack slots, `news` the post-pack
ones. -/
def repackedNew (fs : List Nat → Option (List Nat)) (key : List Nat) :
    Nat → List PicInfo → List PicInfo → List PicInfo
  | _, [], _ => []
  | _, _ :: _, [] => []
  | i, po :: pos, pn :: pns =>
      (if 0 < po.size ∧ (fs (slotFileName key i)).isSome then [pn] else []) ++
      repackedNew fs key (i + 1) pos pns

/-- The repacked slots of a tier across the whole catalog, in (entry, slot)
enumeration order. -/
def repackedOfIcons (fs : List Nat → Option (List Nat))
    (sel : ResourceIcon → IconData) :
    List ResourceIcon → List ResourceIcon → List PicInfo
  | [], _ => []
  | _ :: _, [] => []
  | o :: os, n :: ns =>
      repackedNew fs o.key 0 (sel o).pics (sel n).pics ++ repackedOfIcons fs sel os ns

/-- `chainFrom start l`: the slots of `l` describe consecutive byte
intervals starting at `start`: each slot's offset is the running cursor and
its size is non-negative. -/
def chainFrom (start : Int) : List PicInfo → Prop
  | [] => True
  | p :: ps => p.offset = start ∧ 0 ≤ p.size ∧ chainFrom (start + p.size) ps

/-- Total byte size of a slot list. -/
def sumSizes (l : List PicInfo) : Int := (l.map PicInfo.size).sum

/-- The populated (nonzero-size) slots. -/
def populatedSlots (l : List PicInfo) : List PicInfo :=
  l.filter fun p => p.size ≠ 0

/-- Offsets strictly increase along the list. -/
def offsetsStrictMono (l : List PicInfo) : Prop :=
  l.Chain' fun a b => a.offset < b.offset

/-- No two slots' byte ranges `[offset, offset+size)` overlap. -/
def slotsDisjoint (l : List PicInfo) : Prop :=
  l.Pairwise fun a b => a.offset + a.size ≤ b.offset ∨ b.offset + b.size ≤ a.offset

instance (start : Int) : ∀ l, Decidable (chainFrom start l)
  | [] => .isTrue trivial
  | p :: ps =>
      have : Decidable (chainFrom (start + p.size) ps) := instDecidableChainFrom _ ps
      instDecidableAnd

instance (l : List PicInfo) : Decidable (offsetsStrictMono l) :=
  inferInstanceAs (Decidable (l.Chain' fun a b : PicInfo => a.offset < b.offset))

instance (l : List PicInfo) : Decidable (slotsDisjoint l) :=
  inferInstanceAs (Decidable (l.Pairwise fun a b : PicInfo =>
    a.offset + a.size ≤ b.offset ∨ b.offset + b.size ≤ a.offset))

theorem chainFrom_append : ∀ (l1 : List PicInfo) (s : Int) (l2 : List PicInfo),
    chainFrom s l1 → chainFrom (s + sumSizes l1) l2 → chainFrom s (l1 ++ l2)
  | [], s, l2, _, h2 => by simpa [sumSizes] using h2
  | p :: ps, s, l2, h1, h2 => by
      obtain ⟨hoff, hsz, hch⟩ := h1
      refine ⟨hoff, hsz, ?_⟩
      apply chainFrom_append ps (s + p.size) l2 hch
      have he : s + p.size + sumSizes ps = s + sumSizes (p :: ps) := by
        simp [sumSizes]
        ring
      rwa [he]

theorem chainFrom_lb : ∀ (l : List PicInfo) (s : Int), chainFrom s l →
    ∀ q ∈ l, s ≤ q.offset := by
  intro l
  induction l with
  | nil => intro s _ q hq; simp at hq
  | cons p ps ih =>
      intro s h q hq
      obtain ⟨hoff, hsz, hch⟩ := h
      rcases List.mem_cons.mp hq with rfl | hq'
      · omega
      · have := ih (s + p.size) hch q hq'
        omega

theorem chainFrom_sz : ∀ (l : List PicInfo) (s : Int), chainFrom s l →
    ∀ q ∈ l, 0 ≤ q.size := by
  intro l
  induction l with
  | nil => intro s _ q hq; simp at hq
  | cons p ps ih =>
      intro s h q hq
      obtain ⟨hoff, hsz, hch⟩ := h
      rcases List.mem_cons.mp hq with rfl | hq'
      · exact hsz
      · exact ih (s + p.size) hch q hq'

theorem sumSizes_nonneg : ∀ l : List PicInfo, (∀ q ∈ l, 0 ≤ q.size) → 0 ≤ sumSizes l
  | [], _ => by simp [sumSizes]
  | p :: ps, h => by
      have h1 : 0 ≤ p.size := h p (by simp)
      have h2 := sumSizes_nonneg ps fun q hq => h q (by simp [hq])
      simp only [sumSizes, List.map_cons, List.sum_cons] at h2 ⊢
      omega

theorem chainFrom_sum_nonneg (l : List PicInfo) (s : Int) (h : chainFrom s l) :
    0 ≤ sumSizes l :=
  sumSizes_nonneg l (chainFrom_sz l s h)

theorem chainFrom_ub : ∀ (l : List PicInfo) (s : Int), chainFrom s l →
    ∀ q ∈ l, q.offset + q.size ≤ s + sumSizes l := by
  intro l
  induction l with
  | nil => intro s _ q hq; simp at hq
  | cons p ps ih =>
      intro s h q hq
      obtain ⟨hoff, hsz, hch⟩ := h
      have hsum : sumSizes (p :: ps) = p.size + sumSizes ps := by
        simp [sumSizes]
      rcases List.mem_cons.mp hq with rfl | hq'
      · have := chainFrom_sum_nonneg ps (s + q.size) hch
        omega
      · have := ih (s + p.size) hch q hq'
        omega

theorem chainFrom_pairwise : ∀ (l : List PicInfo) (s : Int), chainFrom s l →
    (populatedSlots l).Pairwise fun a b => a.offset + a.size ≤ b.offset := by
  intro l
  induction l with
  | nil => intro s _; simp [populatedSlots]
  | cons p ps ih =>
      intro s h
      obtain ⟨hoff, hsz, hch⟩ := h
      by_cases hp : p.size = 0
      · have he : populatedSlots (p :: ps) = populatedSlots ps := by
          simp [populatedSlots, hp]
        rw [he]
        exact ih (s + p.size) hch
      · have he : populatedSlots (p :: ps) = p :: populatedSlots ps := by
          simp [populatedSlots, hp]
        rw [he]
        refine List.Pairwise.cons ?_ (ih (s + p.size) hch)
        intro q hq
        have hqmem : q ∈ ps := List.mem_of_mem_filter hq
        have := chainFrom_lb ps (s + p.size) hch q hqmem
        omega

theorem chainFrom_popPos (l : List PicInfo) (s : Int) (h : chainFrom s l) :
    ∀ q ∈ populatedSlots l, 0 < q.size := by
  intro q hq
  have h1 := chainFrom_sz l s h q (List.mem_of_mem_filter hq)
  have h2 : ¬ q.size = 0 := by simpa [populatedSlots] using (List.mem_filter.mp hq).2
  omega

theorem chainFrom_strictMono (l : List PicInfo) (s : Int) (h : chainFrom s l) :
    offsetsStrictMono (populatedSlots l) := by
  have hpw := chainFrom_pairwise l s h
  have hsz := chainFrom_popPos l s h
  refine List.Pairwise.chain' ?_
  refine hpw.imp_of_mem ?_
  intro a b ha hb hr
  have := hsz a ha
  omega

theorem chainFrom_disjoint (l : List PicInfo) (s : Int) (h : chainFrom s l) :
    slotsDisjoint (populatedSlots l) :=
  (chainFrom_pairwise l s h).imp fun hr => Or.inl hr

/-- Central invariant of the per-tier repack loop: the repacked slots form
consecutive intervals starting at the entry cursor, the final cursor is the
start plus their total size, and the cursor always equals the blob length. -/
theorem packPics_chain (fs : List Nat → Option (List Nat)) (key : List Nat) :
    ∀ (pics : List PicInfo) (i : Nat) (buf : List Nat) (off : Nat),
    chainFrom (off : Int)
      (repackedNew fs key i pics (packPics fs key i (buf, off) pics).2) ∧
    ((packPics fs key i (buf, off) pics).1.2 : Int)
      = off + sumSizes (repackedNew fs key i pics (packPics fs key i (buf, off) pics).2) ∧
    (buf.length = off →
      (packPics fs key i (buf, off) pics).1.1.length = (packPics fs key i (buf, off) pics).1.2)
  | [], i, buf, off => by
      simp [packPics, repackedNew, chainFrom, sumSizes]
  | p :: ps, i, buf, off => by
      by_cases hp : 0 < p.size
      · cases hfs : fs (slotFileName key i) with
        | some data =>
            have hre : packSlot fs key i (buf, off) p
                = ((buf ++ data, off + data.length),
                   ⟨(off : Int), (data.length : Int)⟩) := by
              simp [packSlot, hp, hfs]
            obtain ⟨ihc, ihe, ihs⟩ :=
              packPics_chain fs key ps (i + 1) (buf ++ data) (off + data.length)
            simp only [packPics, hre]
            have hguard : 0 < p.size ∧ (fs (slotFileName key i)).isSome = true :=
              ⟨hp, by simp [hfs]⟩
            simp only [repackedNew, if_pos hguard, List.singleton_append]
            push_cast at ihc ihe
            refine ⟨⟨rfl, ?_, ?_⟩, ?_, ?_⟩
            · show (0 : Int) ≤ (data.length : Int)
              omega
            · exact ihc
            · have hs : sumSizes ((⟨(off : Int), (data.length : Int)⟩ : PicInfo) ::
                  repackedNew fs key (i + 1) ps
                    (packPics fs key (i + 1) (buf ++ data, off + data.length) ps).2)
                  = (data.length : Int) + sumSizes (repackedNew fs key (i + 1) ps
                    (packPics fs key (i + 1) (buf ++ data, off + data.length) ps).2) := by
                simp [sumSizes]
              rw [hs]
              omega
            · intro hsync
              have := ihs (by simp [hsync])
              simpa using this
        | none =>
            have hre : packSlot fs key i (buf, off) p = ((buf, off), p) := by
              simp [packSlot, hp, hfs]
            obtain ⟨ihc, ihe, ihs⟩ := packPics_chain fs key ps (i + 1) buf off
            simp only [packPics, hre]
            have hguard : ¬ (0 < p.size ∧ (fs (slotFileName key i)).isSome = true) := by
              simp [hfs]
            simp only [repackedNew, if_neg hguard, List.nil_append]
            exact ⟨ihc, ihe, ihs⟩
      · have hre : packSlot fs key i (buf, off) p = ((buf, off), p) := by
          simp [packSlot, hp]
        obtain ⟨ihc, ihe, ihs⟩ := packPics_chain fs key ps (i + 1) buf off
        simp only [packPics, hre]
        have hguard : ¬ (0 < p.size ∧ (fs (slotFileName key i)).isSome = true) := by
          simp [hp]
        simp only [repackedNew, if_neg hguard, List.nil_append]
        exact ⟨ihc, ihe, ihs⟩

theorem sumSizes_append (a b : List PicInfo) :
    sumSizes (a ++ b) = sumSizes a + sumSizes b := by
  simp [sumSizes]

theorem packIcons_chain (lowFs highFs : List Nat → Option (List Nat)) :
    ∀ (icons : List ResourceIcon) (stL stH : List Nat × Nat),
    (chainFrom (stL.2 : Int) (repackedOfIcons lowFs (fun ic => ic.low) icons
        (packIcons lowFs highFs stL stH icons).2.2) ∧
      ((packIcons lowFs highFs stL stH icons).1.2 : Int)
        = stL.2 + sumSizes (repackedOfIcons lowFs (fun ic => ic.low) icons
            (packIcons lowFs highFs stL stH icons).2.2) ∧
      (stL.1.length = stL.2 →
        (packIcons lowFs highFs stL stH icons).1.1.length
          = (packIcons lowFs highFs stL stH icons).1.2)) ∧
    (chainFrom (stH.2 : Int) (repackedOfIcons highFs (fun ic => ic.high) icons
        (packIcons lowFs highFs stL stH icons).2.2) ∧
      ((packIcons lowFs highFs stL stH icons).2.1.2 : Int)
        = stH.2 + sumSizes (repackedOfIcons highFs (fun ic => ic.high) icons
            (packIcons lowFs highFs stL stH icons).2.2) ∧
      (stH.1.length = stH.2 →
        (packIcons lowFs highFs stL stH icons).2.1.1.length
          = (packIcons lowFs highFs stL stH icons).2.1.2))
  | [], stL, stH => by
      simp [packIcons, repackedOfIcons, chainFrom, sumSizes]
  | icon :: rest, (bufL, offL), (bufH, offH) => by
      obtain ⟨cL, eL, sL⟩ := packPics_chain lowFs icon.key icon.low.pics 0 bufL offL
      obtain ⟨cH, eH, sH⟩ := packPics_chain highFs icon.key icon.high.pics 0 bufH offH
      obtain ⟨⟨cL2, eL2, sL2⟩, ⟨cH2, eH2, sH2⟩⟩ :=
        packIcons_chain lowFs highFs rest
          (packPics lowFs icon.key 0 (bufL, offL) icon.low.pics).1
          (packPics highFs icon.key 0 (bufH, offH) icon.high.pics).1
      simp only [packIcons, repackedOfIcons]
      refine ⟨⟨?_, ?_, ?_⟩, ?_, ?_, ?_⟩
      · apply chainFrom_append _ _ _ cL
        rw [← eL]
        exact cL2
      · rw [sumSizes_append]
        omega
      · intro hsync
        exact sL2 (sL hsync)
      · apply chainFrom_append _ _ _ cH
        rw [← eH]
        exact cH2
      · rw [sumSizes_append]
        omega
      · intro hsync
        exact sH2 (sH hsync)

/-- The low-tier slots repacked by a `pack` run, in (entry, slot) order. -/
def packedLowSlots (icons : List ResourceIcon)
    (lowFs highFs : List Nat → Option (List Nat)) : List PicInfo :=
  repackedOfIcons lowFs (fun ic => ic.low) icons (packRun icons lowFs highFs).2.2

/-- The high-tier slots repacked by a `pack` run, in (entry, slot) order. -/
def packedHighSlots (icons : List ResourceIcon)
    (lowFs highFs : List Nat → Option (List Nat)) : List PicInfo :=
  repackedOfIcons highFs (fun ic => ic.high) icons (packRun icons lowFs highFs).2.2

/-- All slots of one tier of a catalog, in (entry, slot) enumeration order. -/
def tierSlots (icons : List ResourceIcon) (sel : ResourceIcon → IconData) :
    List PicInfo :=
  (icons.map fun ic => (sel ic).pics).flatten

/-- A pre-pack catalog for the C4 counterexample: one icon, key `"k"`, low
slot 0 `(offset 4, size 10)` with its asset file ABSENT, low slot 1
`(offset 7, size 3)` with a 10-byte asset file present. -/
def c4icons : List ResourceIcon :=
  [⟨[107], ⟨0, 0, 0, 0, ⟨4, 10⟩ :: ⟨7, 3⟩ :: List.replicate 6 ⟨0, 0⟩⟩,
    zeroIconData, zeroIconData, zeroIconData⟩]

/-- The working directory for the C4 counterexample: only `k_s1.png`
exists (10 bytes). -/
def c4fs : List Nat → Option (List Nat) :=
  fun n => if n = slotFileName [107] 1 then some [1, 2, 3, 4, 5, 6, 7, 8, 9, 10] else none

/-- The empty working directory. -/
def noFs : List Nat → Option (List Nat) := fun _ => none

/-- **C4** counterexample: after packing the low tier of `c4icons` with
`c4fs`, slot 0 keeps its stale pre-pack values `(4, 10)` (its file is
absent) while slot 1 is repacked to `(4, 10)` — two populated slots with
equal offsets that fully overlap.  So "offsets strictly increase and no two
populated slots overlap", read over the tier's slots, is false. -/
theorem C4_counterexample :
    ¬ (offsetsStrictMono (populatedSlots
        (tierSlots (packRun c4icons c4fs noFs).2.2 fun ic => ic.low)) ∧
       slotsDisjoint (populatedSlots
        (tierSlots (packRun c4icons c4fs noFs).2.2 fun ic => ic.low))) := by
  have he : populatedSlots (tierSlots (packRun c4icons c4fs noFs).2.2 fun ic => ic.low)
      = [⟨4, 10⟩, ⟨4, 10⟩] := by decide
  rw [he]
  rintro ⟨hm, -⟩
  simp only [offsetsStrictMono, List.chain'_cons, List.chain'_singleton, and_true] at hm
  omega

/-- **C4 (amended)**: after packing a tier (low or high), the offsets of
the slots actually REPACKED into that tier's blob strictly increase in
(entry, slot) enumeration order (among those of nonzero size), no two such
populated slots overlap, and each lies within the final blob. -/
theorem C4_pack_monotone_amended (icons : List ResourceIcon)
    (lowFs highFs : List Nat → Option (List Nat)) :
    (offsetsStrictMono (populatedSlots (packedLowSlots icons lowFs highFs)) ∧
     slotsDisjoint (populatedSlots (packedLowSlots icons lowFs highFs)) ∧
     ∀ q ∈ populatedSlots (packedLowSlots icons lowFs highFs),
       0 ≤ q.offset ∧ q.offset + q.size ≤ ((packRun icons lowFs highFs).1.1.length : Int)) ∧
    (offsetsStrictMono (populatedSlots (packedHighSlots icons lowFs highFs)) ∧
     slotsDisjoint (populatedSlots (packedHighSlots icons lowFs highFs)) ∧
     ∀ q ∈ populatedSlots (packedHighSlots icons lowFs highFs),
       0 ≤ q.offset ∧ q.offset + q.size ≤ ((packRun icons lowFs highFs).2.1.1.length : Int)) := by
  obtain ⟨⟨cL, eL, sL⟩, ⟨cH, eH, sH⟩⟩ := packIcons_chain lowFs highFs icons (fdrq, 4) (fdrq, 4)
  dsimp only at cL cH eL eH sL sH
  have hsyncL := sL (by decide)
  have hsyncH := sH (by decide)
  simp only [packedLowSlots, packedHighSlots, packRun]
  refine ⟨⟨chainFrom_strictMono _ _ cL, chainFrom_disjoint _ _ cL, ?_⟩,
          ⟨chainFrom_strictMono _ _ cH, chainFrom_disjoint _ _ cH, ?_⟩⟩
  · intro q hq
    have hlb := chainFrom_lb _ _ cL q (List.mem_of_mem_filter hq)
    have hub := chainFrom_ub _ _ cL q (List.mem_of_mem_filter hq)
    refine ⟨by omega, ?_⟩
    rw [hsyncL]
    omega
  · intro q hq
    have hlb := chainFrom_lb _ _ cH q (List.mem_of_mem_filter hq)
    have hub := chainFrom_ub _ _ cH q (List.mem_of_mem_filter hq)
    refine ⟨by omega, ?_⟩
    rw [hsyncH]
    omega

/-- The four fixed resolution tiers (`res_keys` / `res_map` order). -/
inductive Tier where
  | low
  | high
  | xlow
  | xhigh
deriving DecidableEq

/-- `self.resolutions[key]` lookup. -/
def ResourceIcon.res (r : ResourceIcon) : Tier → IconData
  | .low => r.low
  | .high => r.high
  | .xlow => r.xlow
  | .xhigh => r.xhigh

/-- The working-directory tier folder consulted by `pack` (only `low` and
`high` are ever repacked). -/
def tierFs (lowFs highFs : List Nat → Option (List Nat)) : Tier →
    (List Nat → Option (List Nat))
  | .low => lowFs
  | .high => highFs
  | _ => noFs

/-- Skipped slots are untouched: if the pre-pack size hint is zero (or
non-positive) or the asset file is absent, `packPics` keeps the slot's
previous `PicInfo` verbatim. -/
theorem packPics_preserve (fs : List Nat → Option (List Nat)) (key : List Nat) :
    ∀ (pics : List PicInfo) (i k : Nat) (st : List Nat × Nat),
    ((pics.getD k default).size = 0 ∨ fs (slotFileName key (i + k)) = none) →
    (packPics fs key i st pics).2.getD k default = pics.getD k default
  | [], i, k, st, _ => by simp [packPics]
  | p :: ps, i, 0, st, hcond => by
      simp only [List.getD_cons_zero] at hcond ⊢
      simp only [packPics]
      rcases hcond with h0 | hnone
      · have : ¬ 0 < p.size := by omega
        simp [packSlot, this]
      · simp only [Nat.add_zero] at hnone
        by_cases hp : 0 < p.size
        · simp [packSlot, hp, hnone]
        · simp [packSlot, hp]
  | p :: ps, i, k + 1, st, hcond => by
      simp only [List.getD_cons_succ] at hcond ⊢
      simp only [packPics]
      rw [List.getD_cons_succ]
      exact packPics_preserve fs key ps (i + 1) k (packSlot fs key i st p).1
        (by rwa [show i + 1 + k = i + (k + 1) from by omega])

/-- `pack` never touches the `key`, `xlow` or `xhigh` parts of any icon. -/
theorem packIcons_preserves_rest (lowFs highFs : List Nat → Option (List Nat)) :
    ∀ (icons : List ResourceIcon) (stL stH : List Nat × Nat),
    (packIcons lowFs highFs stL stH icons).2.2.map (fun ic => (ic.key, ic.xlow, ic.xhigh))
      = icons.map fun ic => (ic.key, ic.xlow, ic.xhigh)
  | [], _, _ => rfl
  | icon :: rest, stL, stH => by
      simp only [packIcons, List.map_cons]
      rw [packIcons_preserves_rest lowFs highFs rest _ _]

/-- Each packed icon is its pre-pack original with the `low`/`high` slot
lists rewritten by `packPics` from SOME intermediate states. -/
theorem packIcons_getD (lowFs highFs : List Nat → Option (List Nat)) :
    ∀ (icons : List ResourceIcon) (stL stH : List Nat × Nat) (j : Nat),
    j < icons.length →
    ∃ sL sH, (packIcons lowFs highFs stL stH icons).2.2.getD j default
      = { icons.getD j default with
          low := { (icons.getD j default).low with
            pics := (packPics lowFs (icons.getD j default).key 0 sL
              (icons.getD j default).low.pics).2 }
          high := { (icons.getD j default).high with
            pics := (packPics highFs (icons.getD j default).key 0 sH
              (icons.getD j default).high.pics).2 } }
  | [], _, _, j, hj => by simp at hj
  | icon :: rest, stL, stH, 0, _ => by
      refine ⟨stL, stH, ?_⟩
      simp [packIcons, List.getD_cons_zero]
  | icon :: rest, stL, stH, j + 1, hj => by
      simp only [packIcons, List.getD_cons_succ]
      exact packIcons_getD lowFs highFs rest _ _ j (by simpa using hj)

/-- **C5**: pack's frame property.  A low/high slot whose pre-pack size
hint is zero, or whose asset file `{key}_s{i}.png` is absent from the tier
folder, keeps its offset and size numerically identical; no icon's key,
xlow or xhigh data is ever mutated; the blobs contain exactly the magic
preamble plus the repacked slots' bytes; and the xlow/xhigh sidecar files
(when their names do not alias the written ones) are never written. -/
theorem C5_pack_frame (cat : Catalog) (index_file_name : List Nat)
    (lowFs highFs : List Nat → Option (List Nat)) (original_buf : List Nat)
    (t : Tier) (j i : Nat) (ws : List (List Nat × List Nat))
    (ht : t = Tier.low ∨ t = Tier.high)
    (hj : j < cat.icons.length)
    (hcond : (((cat.icons.getD j default).res t).pics.getD i default).size = 0 ∨
      tierFs lowFs highFs t (slotFileName (cat.icons.getD j default).key i) = none)
    (hx1 : cat.xlow_resolution_data_file ∉
      [cat.low_resolution_data_file, cat.high_resolution_data_file, index_file_name])
    (hx2 : cat.xhigh_resolution_data_file ∉
      [cat.low_resolution_data_file, cat.high_resolution_data_file, index_file_name])
    (hw : pack cat index_file_name lowFs highFs original_buf = some ws) :
    ((((packRun cat.icons lowFs highFs).2.2.getD j default).res t).pics.getD i default
        = ((cat.icons.getD j default).res t).pics.getD i default) ∧
    ((packRun cat.icons lowFs highFs).2.2.map (fun ic => (ic.key, ic.xlow, ic.xhigh))
        = cat.icons.map fun ic => (ic.key, ic.xlow, ic.xhigh)) ∧
    (((packRun cat.icons lowFs highFs).1.1.length : Int)
        = 4 + sumSizes (packedLowSlots cat.icons lowFs highFs)) ∧
    (((packRun cat.icons lowFs highFs).2.1.1.length : Int)
        = 4 + sumSizes (packedHighSlots cat.icons lowFs highFs)) ∧
    cat.xlow_resolution_data_file ∉ ws.map Prod.fst ∧
    cat.xhigh_resolution_data_file ∉ ws.map Prod.fst := by
  obtain ⟨sL, sH, hdecomp⟩ := packIcons_getD lowFs highFs cat.icons (fdrq, 4) (fdrq, 4) j hj
  obtain ⟨⟨cL, eL, sLh⟩, ⟨cH, eH, sHh⟩⟩ :=
    packIcons_chain lowFs highFs cat.icons (fdrq, 4) (fdrq, 4)
  dsimp only at eL eH sLh sHh
  push_cast at eL eH
  have hws : ws = [(cat.low_resolution_data_file,
        (packIcons lowFs highFs (fdrq, 4) (fdrq, 4) cat.icons).1.1),
      (cat.high_resolution_data_file,
        (packIcons lowFs highFs (fdrq, 4) (fdrq, 4) cat.icons).2.1.1),
      (index_file_name, (outputIndexFile original_buf
        (packIcons lowFs highFs (fdrq, 4) (fdrq, 4) cat.icons).2.2).getD [])] := by
    simp only [pack, packRun] at hw
    cases ho : outputIndexFile original_buf
        (packIcons lowFs highFs (fdrq, 4) (fdrq, 4) cat.icons).2.2 with
    | none => rw [ho] at hw; exact Option.noConfusion hw
    | some out =>
        rw [ho] at hw
        exact (Option.some.inj hw).symm
  refine ⟨?_, ?_, ?_, ?_, ?_, ?_⟩
  · simp only [packRun]
    rw [hdecomp]
    rcases ht with rfl | rfl
    · have hc' : ((cat.icons.getD j default).low.pics.getD i default).size = 0 ∨
          lowFs (slotFileName (cat.icons.getD j default).key (0 + i)) = none := by
        rcases hcond with hc | hc
        · exact Or.inl hc
        · exact Or.inr (by rw [Nat.zero_add]; exact hc)
      show (packPics lowFs (cat.icons.getD j default).key 0 sL
          (cat.icons.getD j default).low.pics).2.getD i default = _
      rw [packPics_preserve lowFs _ _ 0 i sL hc']
      rfl
    · have hc' : ((cat.icons.getD j default).high.pics.getD i default).size = 0 ∨
          highFs (slotFileName (cat.icons.getD j default).key (0 + i)) = none := by
        rcases hcond with hc | hc
        · exact Or.inl hc
        · exact Or.inr (by rw [Nat.zero_add]; exact hc)
      show (packPics highFs (cat.icons.getD j default).key 0 sH
          (cat.icons.getD j default).high.pics).2.getD i default = _
      rw [packPics_preserve highFs _ _ 0 i sH hc']
      rfl
  · simp only [packRun]
    exact packIcons_preserves_rest lowFs highFs cat.icons _ _
  · have hs := sLh (by decide)
    simp only [packRun, packedLowSlots]
    rw [hs]
    exact eL
  · have hs := sHh (by decide)
    simp only [packRun, packedHighSlots]
    rw [hs]
    exact eH
  · rw [hws]
    simpa using hx1
  · rw [hws]
    simpa using hx2

/-- A one-icon catalog used to instantiate the pack frame theorem. -/
def c5icon : ResourceIcon := ⟨[107], zeroIconData, zeroIconData, zeroIconData, zeroIconData⟩

def c5cat : Catalog := ⟨[110], [76], [72], [88, 76], [88, 72], [], [c5icon]⟩

/-- What `pack` writes for `c5cat` with empty working directories: the two
magic-only blobs and an index holding the single all-zero record. -/
def c5ws : List (List Nat × List Nat) :=
  [([76], fdrq), ([72], fdrq),
   ([105], [107] ++ List.replicate 47 0 ++ List.replicate 320 0)]

/-! ### The extract engine -/

/-- Python slice-bound normalisation: a negative index counts from the end,
then the bound is clamped into `[0, n]`. -/
def pyBound (n : Nat) (i : Int) : Nat :=
  if i < 0 then (max ((n : Int) + i) 0).toNat else min i.toNat n

/-- Python `l[a:b]` for integer bounds. -/
def pySlice (l : List Nat) (a b : Int) : List Nat :=
  (l.take (pyBound l.length b)).drop (pyBound l.length a)

/-- The per-tier output folder name used by `extract`
(`Low` / `High` / `XLow` / `XHigh`). -/
def tierFolder : Tier → List Nat
  | .low => [76, 111, 119]
  | .high => [72, 105, 103, 104]
  | .xlow => [88, 76, 111, 119]
  | .xhigh => [88, 72, 105, 103, 104]

/-- The tier iteration order of `res_map` in `extract`. -/
def tierList : List Tier := [.low, .high, .xlow, .xhigh]

/-- One slot of the extract loop: skip silently when `size == 0`, skip with
a warning when `offset + size > len(blob)`, otherwise write
`blob[offset : offset + size]` to `{key}_s{i}.png`. -/
def slotOutput (blob key : List Nat) (i : Nat) (p : PicInfo) :
    List (List Nat × List Nat) :=
  if p.size = 0 then []
  else if (blob.length : Int) < p.offset + p.size then []
  else [(slotFileName key i, pySlice blob p.offset (p.offset + p.size))]

/-- The `for i, p in enumerate(...)` loop over one tier's slot list. -/
def extractPics (blob key : List Nat) : Nat → List PicInfo →
    List (List Nat × List Nat)
  | _, [] => []
  | i, p :: ps => slotOutput blob key i p ++ extractPics blob key (i + 1) ps

/-- The tier loop of `extract` for one icon: tiers whose data file was not
read are skipped wholesale; written files live under the tier folder. -/
def extractIcon (buffers : Tier → Option (List Nat)) (icon : ResourceIcon) :
    List (List Nat × List Nat) :=
  tierList.flatMap fun t =>
    match buffers t with
    | none => []
    | some blob =>
        (extractPics blob icon.key 0 (icon.res t).pics).map
          fun w => (tierFolder t ++ [47] ++ w.1, w.2)

/-- `IconResources.extract`: every icon in order, the full tier loop for
each; the result lists the written files as
(`{TierFolder}/{key}_s{i}.png`, bytes). -/
def extract (buffers : Tier → Option (List Nat)) (icons : List ResourceIcon) :
    List (List Nat × List Nat) :=
  icons.flatMap (extractIcon buffers)

theorem pySlice_nonneg (l : List Nat) (a b : Int) (ha : 0 ≤ a) (hab : a ≤ b)
    (hb : b ≤ (l.length : Int)) :
    pySlice l a b = (l.drop a.toNat).take (b.toNat - a.toNat) := by
  simp only [pySlice, pyBound]
  rw [if_neg (by omega), if_neg (by omega)]
  have hbl : b.toNat ≤ l.length := by omega
  have hal : a.toNat ≤ l.length := by omega
  rw [Nat.min_eq_left hbl, Nat.min_eq_left hal]
  rw [List.drop_take]

theorem extractPics_mem (blob key : List Nat) :
    ∀ (pics : List PicInfo) (s i : Nat), i < pics.length →
    ∀ w ∈ slotOutput blob key (s + i) (pics.getD i default),
      w ∈ extractPics blob key s pics
  | [], s, i, hi => by simp at hi
  | p :: ps, s, 0, _ => by
      intro w hw
      simp only [Nat.add_zero, List.getD_cons_zero] at hw
      simp only [extractPics, List.mem_append]
      exact Or.inl hw
  | p :: ps, s, i + 1, hi => by
      intro w hw
      simp only [List.getD_cons_succ] at hw
      simp only [extractPics, List.mem_append]
      refine Or.inr (extractPics_mem blob key ps (s + 1) i (by simpa using hi) w ?_)
      rwa [show s + 1 + i = s + (i + 1) from by omega]

theorem extract_mem (buffers : Tier → Option (List Nat))
    (icons : List ResourceIcon) (t : Tier) (j : Nat) (blob : List Nat)
    (hb : buffers t = some blob) (hj : j < icons.length) :
    ∀ w ∈ extractPics blob (icons.getD j default).key 0
        ((icons.getD j default).res t).pics,
      (tierFolder t ++ [47] ++ w.1, w.2) ∈ extract buffers icons := by
  intro w hw
  have hmem : icons.getD j default ∈ icons := by
    rw [List.getD_eq_getElem icons default hj]
    exact List.getElem_mem hj
  refine List.mem_flatMap.mpr ⟨icons.getD j default, hmem, ?_⟩
  simp only [extractIcon]
  refine List.mem_flatMap.mpr ⟨t, by cases t <;> decide, ?_⟩
  rw [hb]
  exact List.mem_map.mpr ⟨w, hw, rfl⟩

/-- **C6**: extract's slot handling.  For an icon of the catalog, a tier
whose data file was read, and a slot in range: a `size == 0` slot produces
no file regardless of offset; a nonzero-size slot whose `offset + size`
exceeds the blob length is skipped; an in-range slot (offset and size
nonnegative, as the format intends) produces exactly the bytes
`blob[offset : offset + size]` under the name `{key}_s{i}.png`; and every
file the slot produces appears, prefixed by the tier folder, in the output
of the whole `extract` run. -/
theorem C6_extract_slots (buffers : Tier → Option (List Nat))
    (icons : List ResourceIcon) (t : Tier) (j i : Nat) (blob : List Nat)
    (p : PicInfo) (key : List Nat)
    (hb : buffers t = some blob)
    (hj : j < icons.length)
    (hi : i < ((icons.getD j default).res t).pics.length)
    (hp : p = ((icons.getD j default).res t).pics.getD i default)
    (hkey : key = (icons.getD j default).key) :
    (p.size = 0 → slotOutput blob key i p = []) ∧
    (p.size ≠ 0 → (blob.length : Int) < p.offset + p.size →
      slotOutput blob key i p = []) ∧
    (0 < p.size → 0 ≤ p.offset → p.offset + p.size ≤ (blob.length : Int) →
      slotOutput blob key i p
        = [(slotFileName key i, (blob.drop p.offset.toNat).take p.size.toNat)]) ∧
    (∀ w ∈ slotOutput blob key i p,
      (tierFolder t ++ [47] ++ w.1, w.2) ∈ extract buffers icons) := by
  refine ⟨?_, ?_, ?_, ?_⟩
  · intro h0
    simp [slotOutput, h0]
  · intro hne hover
    simp only [slotOutput]
    rw [if_neg hne, if_pos hover]
  · intro hpos hoff hrange
    simp only [slotOutput]
    rw [if_neg (by omega), if_neg (by omega)]
    rw [pySlice_nonneg blob p.offset (p.offset + p.size) hoff (by omega) hrange]
    have ht : (p.offset + p.size).toNat = p.offset.toNat + p.size.toNat :=
      Int.toNat_add hoff (by omega)
    rw [ht, Nat.add_sub_cancel_left]
  · intro w hw
    refine extract_mem buffers icons t j blob hb hj w ?_
    refine extractPics_mem blob (icons.getD j default).key
      ((icons.getD j default).res t).pics 0 i hi w ?_
    rw [Nat.zero_add, ← hp, ← hkey]
    exact hw

/-- The low-tier data blob of the Spinner_12 scenario: the magic preamble
followed by ten payload bytes. -/
def c6blob : List Nat := fdrq ++ [1, 2, 3, 4, 5, 6, 7, 8, 9, 10]

/-- Data-file read results for the scenario: only the low tier present. -/
def c6buffers : Tier → Option (List Nat)
  | .low => some c6blob
  | _ => none

/-- Witness for C6: the Spinner_12 scenario — low-tier slot 0 with
`offset = 4`, `size = 10` against the 14-byte blob yields
`Low/Spinner_12_s0.png` holding exactly the ten payload bytes. -/
theorem C6_extract_slots_witness :
    slotOutput c6blob first_key_name 0 ⟨4, 10⟩
      = [(slotFileName first_key_name 0, [1, 2, 3, 4, 5, 6, 7, 8, 9, 10])] ∧
    (tierFolder Tier.low ++ [47] ++ slotFileName first_key_name 0,
      [1, 2, 3, 4, 5, 6, 7, 8, 9, 10]) ∈ extract c6buffers [demoIcon] := by
  have h := C6_extract_slots c6buffers [demoIcon] Tier.low 0 0 c6blob
    ⟨4, 10⟩ first_key_name rfl (by decide) (by decide) (by decide) (by decide)
  obtain ⟨-, -, h3, h4⟩ := h
  have he := h3 (by decide) (by decide) (by decide)
  have hval : ((c6blob.drop (Int.toNat 4)).take (Int.toNat 10))
      = [1, 2, 3, 4, 5, 6, 7, 8, 9, 10] := by decide
  rw [hval] at he
  refine ⟨he, ?_⟩
  refine h4 (slotFileName first_key_name 0, [1, 2, 3, 4, 5, 6, 7, 8, 9, 10]) ?_
  rw [he]
  exact List.mem_singleton.mpr rfl

/-- Witness for C5: the frame property instantiated at `c5cat`, tier low,
icon 0, slot 0, with every hypothesis checked concretely. -/
theorem C5_pack_frame_witness :
    ((((packRun c5cat.icons noFs noFs).2.2.getD 0 default).res Tier.low).pics.getD 0 default
        = ((c5cat.icons.getD 0 default).res Tier.low).pics.getD 0 default) ∧
    ((packRun c5cat.icons noFs noFs).2.2.map (fun ic => (ic.key, ic.xlow, ic.xhigh))
        = c5cat.icons.map fun ic => (ic.key, ic.xlow, ic.xhigh)) ∧
    (((packRun c5cat.icons noFs noFs).1.1.length : Int)
        = 4 + sumSizes (packedLowSlots c5cat.icons noFs noFs)) ∧
    (((packRun c5cat.icons noFs noFs).2.1.1.length : Int)
        = 4 + sumSizes (packedHighSlots c5cat.icons noFs noFs)) ∧
    c5cat.xlow_resolution_data_file ∉ c5ws.map Prod.fst ∧
    c5cat.xhigh_resolution_data_file ∉ c5ws.map Prod.fst :=
  C5_pack_frame c5cat [105] noFs noFs [] Tier.low 0 0 c5ws
    (Or.inl rfl) (by decide) (Or.inl (by decide)) (by decide) (by decide) (by decide)

end Pscc2025
